import Mathlib

/-!
Shallow embedding of the LEOPath forwarding-state computation core.

Sources embedded:
* `src/network_state/routing_algorithms/shortest_path_link_state_routing/fstate_calculation.py`
* `src/network_state/routing_algorithms/topological_routing/fstate_calculation.py`
* `src/post_analysis/graph_tools.py` (`get_path`)
* `src/topology/satellite/topological_network_address.py` (absent from the
  sources; modelled from the spec where needed)

Modelling conventions:
* Physical distances (Python floats) are rationals `ℚ`.
* A distance of `+infinity` (numpy `inf` / `math.inf`) is `Option.none`;
  a finite distance `d` is `some d`.
* Python dictionaries are functions `κ → Option υ`; an absent key is `none`.
* The external library calls `nx.floyd_warshall_numpy` and `nx.shortest_path`
  are modelled as oracle parameters; an oracle value `none` models the call
  raising an exception (which the Python code catches).
-/

/-- Lexicographic comparison of `(total_distance, satellite_id)` pairs: the order
used by Python `list.sort()` on tuples in `possibilities.sort()`. -/
def pairLe (a b : ℚ × ℕ) : Prop := a.1 < b.1 ∨ (a.1 = b.1 ∧ a.2 ≤ b.2)

instance : DecidableRel pairLe := fun a b => by unfold pairLe; infer_instance

instance : IsTotal (ℚ × ℕ) pairLe := by
  constructor
  intro a b
  rcases lt_trichotomy a.1 b.1 with h | h | h
  · exact Or.inl (Or.inl h)
  · rcases Nat.le_total a.2 b.2 with h2 | h2
    · exact Or.inl (Or.inr ⟨h, h2⟩)
    · exact Or.inr (Or.inr ⟨h.symm, h2⟩)
  · exact Or.inr (Or.inl h)

instance : IsTrans (ℚ × ℕ) pairLe := by
  constructor
  intro a b c hab hbc
  rcases hab with h1 | ⟨h1, h1n⟩
  · rcases hbc with h2 | ⟨h2, _⟩
    · exact Or.inl (h1.trans h2)
    · exact Or.inl (h2 ▸ h1)
  · rcases hbc with h2 | ⟨h2, h2n⟩
    · exact Or.inl (h1 ▸ h2)
    · exact Or.inr ⟨h1.trans h2, h1n.trans h2n⟩

/-- Dictionary update: `m[k] = v` on a map modelled as `κ → Option υ`. -/
def mupd {κ : Type} {υ : Type} [DecidableEq κ] (m : κ → Option υ) (k : κ) (v : υ) :
    κ → Option υ :=
  fun x => if x = k then some v else m x

/-- A forwarding entry `(next_hop_id, local_interface, remote_interface)`;
the sentinel `(-1, -1, -1)` means "no route, drop". -/
abbrev FVal := ℤ × ℤ × ℤ

/-- The forwarding-state mapping `{(src_id, dst_id): (next_hop, my_if, next_if)}`. -/
abbrev FState := ℕ × ℕ → Option FVal

/-- The intermediate sat→GS distance cache `dist_satellite_to_ground_station`;
a stored value of `none` is a recorded distance of `float("inf")`. -/
abbrev DCache := ℕ × ℕ → Option (Option ℚ)

/-- A satellite entity: identity and the count of established ISL interfaces. -/
structure Satellite where
  id : ℕ
  number_isls : ℕ
deriving DecidableEq, Repr

/-- A ground station entity (only its identity matters to the resolver). -/
structure GroundStation where
  id : ℕ
deriving DecidableEq, Repr

/-- The weighted undirected ISL graph, by adjacency: `nodes` lists the node ids,
`neighbors n` lists the ISL neighbors of `n`, and `edgeWeight a b` is the
`weight` attribute of edge `(a, b)` (`none` models a missing edge or a missing
weight attribute, which in Python surfaces as a `KeyError`). -/
structure SatGraph where
  nodes : List ℕ
  neighbors : ℕ → List ℕ
  edgeWeight : ℕ → ℕ → Option ℚ

/-- The induced subgraph on the node set `keep`
(`full_graph.subgraph(satellite_node_ids)` in the source). -/
def SatGraph.subgraph (g : SatGraph) (keep : List ℕ) : SatGraph where
  nodes := keep.filter (fun n => n ∈ g.nodes)
  neighbors := fun n =>
    if n ∈ keep then (g.neighbors n).filter (fun m => m ∈ keep) else []
  edgeWeight := fun a b =>
    if a ∈ keep ∧ b ∈ keep then g.edgeWeight a b else none

/-- The topology object consumed by the resolvers: the ISL graph, the directed
per-ISL interface index map, and the satellite list. -/
structure LEOTopology where
  graph : SatGraph
  sat_neighbor_to_if : ℕ × ℕ → Option ℤ
  satellites : List Satellite

/-- Satellite lookup by id (`topology.get_satellite`); `none` models the
`KeyError` the Python callers catch. -/
def LEOTopology.get_satellite (t : LEOTopology) (i : ℕ) : Option Satellite :=
  t.satellites.find? (fun s => s.id = i)

/-- The sorted list of graph nodes that are satellite ids
(`satellite_node_ids = sorted([n for n in full_graph.nodes() if n in all_satellite_ids])`). -/
def satellite_node_ids (topology_with_isls : LEOTopology) : List ℕ :=
  (topology_with_isls.graph.nodes.filter
    (fun n => n ∈ topology_with_isls.satellites.map Satellite.id)).insertionSort (· ≤ ·)

/-- The id-to-matrix-index bijection `node_to_index` built from `satellite_node_ids`
(graph node lists are duplicate-free, so first-index lookup agrees with the
Python dict comprehension). -/
def node_to_index (topology_with_isls : LEOTopology) : ℕ → Option ℕ :=
  fun n => (satellite_node_ids topology_with_isls).findIdx? (fun m => m = n)

/-- Comparison `q < best` against a running best distance initialised to
`float("inf")` (`none`). -/
def infLt (q : ℚ) : Option ℚ → Bool
  | none => true
  | some b => decide (q < b)

/-- Embedding of `_get_satellite_possibilities`: filter the visibility list of a
ground station down to exit satellites present in the ISL index with a finite
shortest-path distance from the current satellite, and sort the resulting
`(total_distance, satellite_id)` pairs. -/
def getSatellitePossibilities (possible_dst_sats : List (ℚ × ℕ)) (curr_sat_idx : ℕ)
    (nti : ℕ → Option ℕ) (dist_matrix : ℕ → ℕ → Option ℚ) : List (ℚ × ℕ) :=
  let possibilities := possible_dst_sats.filterMap (fun visibility_info =>
    match nti visibility_info.2 with
    | none => none
    | some visible_sat_idx =>
      match dist_matrix curr_sat_idx visible_sat_idx with
      | none => none
      | some dist_curr_to_visible_sat =>
        some (dist_curr_to_visible_sat + visibility_info.1, visibility_info.2))
  List.insertionSort pairLe possibilities

/-- One iteration of the neighbor loop in `_handle_multihop_path`: the state is
the pair `(next_hop_decision, best_neighbor_dist_m)`. -/
def multihopStep (curr_sat_id : ℕ) (dst_sat_idx : ℕ) (sat_subgraph : SatGraph)
    (nti : ℕ → Option ℕ) (dist_matrix : ℕ → ℕ → Option ℚ)
    (sat_neighbor_to_if : ℕ × ℕ → Option ℤ)
    (st : FVal × Option ℚ) (neighbor_id : ℕ) : FVal × Option ℚ :=
  match nti neighbor_id with
  | none => st
  | some neighbor_idx =>
    match sat_subgraph.edgeWeight curr_sat_id neighbor_id with
    | none => st
    | some link_weight =>
      match dist_matrix neighbor_idx dst_sat_idx with
      | none => st
      | some dist_neighbor_to_dst_sat =>
        let distance_m := link_weight + dist_neighbor_to_dst_sat
        if infLt distance_m st.2 then
          (((neighbor_id : ℤ),
            (sat_neighbor_to_if (curr_sat_id, neighbor_id)).getD (-1),
            (sat_neighbor_to_if (neighbor_id, curr_sat_id)).getD (-1)),
           some distance_m)
        else st

/-- Embedding of `_handle_multihop_path`: scan the ISL neighbors of the current
satellite and keep the one minimizing `link_weight + D[neighbor, dst_sat]`. -/
def handleMultihopPath (curr_sat_id : ℕ) (dst_sat_idx : ℕ) (sat_subgraph : SatGraph)
    (nti : ℕ → Option ℕ) (dist_matrix : ℕ → ℕ → Option ℚ)
    (sat_neighbor_to_if : ℕ × ℕ → Option ℤ) : FVal :=
  ((sat_subgraph.neighbors curr_sat_id).foldl
    (multihopStep curr_sat_id dst_sat_idx sat_subgraph nti dist_matrix sat_neighbor_to_if)
    ((-1, -1, -1), none)).1

/-- Embedding of `_handle_direct_gs_path`: the current satellite is the chosen
exit, so the next hop is the ground station itself. -/
def handleDirectGsPath (dst_sat_id : ℕ) (dst_gs_node_id : ℕ)
    (topology_with_isls : LEOTopology) : FVal :=
  match topology_with_isls.get_satellite dst_sat_id with
  | some dst_satellite => ((dst_gs_node_id : ℤ), (dst_satellite.number_isls : ℤ), 0)
  | none => (-1, -1, -1)

/-- Embedding of `_get_next_hop_decision` (shortest-path variant): returns the
forwarding entry and the recorded distance (with `none` for `float("inf")`). -/
def getNextHopDecision (possible_sat_gs_routes : List (ℚ × ℕ)) (curr_sat_id : ℕ)
    (nti : ℕ → Option ℕ) (sat_subgraph : SatGraph)
    (dist_matrix : ℕ → ℕ → Option ℚ) (sat_neighbor_to_if : ℕ × ℕ → Option ℤ)
    (topology_with_isls : LEOTopology) (dst_gs_node_id : ℕ) : FVal × Option ℚ :=
  match possible_sat_gs_routes with
  | [] => ((-1, -1, -1), none)
  | (distance_to_ground_station_m, dst_sat_id) :: _ =>
    match nti dst_sat_id with
    | none => ((-1, -1, -1), some distance_to_ground_station_m)
    | some dst_sat_idx =>
      if curr_sat_id ≠ dst_sat_id then
        (handleMultihopPath curr_sat_id dst_sat_idx sat_subgraph nti dist_matrix
          sat_neighbor_to_if,
         some distance_to_ground_station_m)
      else
        (handleDirectGsPath dst_sat_id dst_gs_node_id topology_with_isls,
         some distance_to_ground_station_m)

/-- The ground-station loop of `_calculate_sat_to_gs_fstate` for one current
satellite, carried out from ground-station index `gs_idx` onward; the state is
the pair `(dist_satellite_to_ground_station, fstate)`. -/
def satToGsInner (topology_with_isls : LEOTopology) (nti : ℕ → Option ℕ)
    (sat_subgraph : SatGraph) (dist_matrix : ℕ → ℕ → Option ℚ)
    (sat_neighbor_to_if : ℕ × ℕ → Option ℤ)
    (ground_station_satellites_in_range : List (List (ℚ × ℕ)))
    (curr_sat_id curr_sat_idx : ℕ) (gs_idx : ℕ) (gss : List GroundStation)
    (st : DCache × FState) : DCache × FState :=
  match gss with
  | [] => st
  | dst_gs :: rest =>
    if gs_idx ≥ ground_station_satellites_in_range.length then
      satToGsInner topology_with_isls nti sat_subgraph dist_matrix sat_neighbor_to_if
        ground_station_satellites_in_range curr_sat_id curr_sat_idx (gs_idx + 1) rest st
    else
      let possible_dst_sats := ground_station_satellites_in_range.getD gs_idx []
      let possibilities :=
        getSatellitePossibilities possible_dst_sats curr_sat_idx nti dist_matrix
      let r := getNextHopDecision possibilities curr_sat_id nti sat_subgraph dist_matrix
        sat_neighbor_to_if topology_with_isls dst_gs.id
      let st' := (mupd st.1 (curr_sat_id, dst_gs.id) r.2,
                  mupd st.2 (curr_sat_id, dst_gs.id) r.1)
      satToGsInner topology_with_isls nti sat_subgraph dist_matrix sat_neighbor_to_if
        ground_station_satellites_in_range curr_sat_id curr_sat_idx (gs_idx + 1) rest st'

/-- The satellite loop of `_calculate_sat_to_gs_fstate`: satellites whose object
lookup fails (`KeyError`) are skipped. -/
def satToGsOuter (topology_with_isls : LEOTopology) (nti : ℕ → Option ℕ)
    (sat_subgraph : SatGraph) (dist_matrix : ℕ → ℕ → Option ℚ)
    (sat_neighbor_to_if : ℕ × ℕ → Option ℤ)
    (ground_stations : List GroundStation)
    (ground_station_satellites_in_range : List (List (ℚ × ℕ)))
    (sats : List ℕ) (st : DCache × FState) : DCache × FState :=
  match sats with
  | [] => st
  | curr_sat_id :: rest =>
    let st' :=
      match topology_with_isls.get_satellite curr_sat_id with
      | none => st
      | some _ =>
        satToGsInner topology_with_isls nti sat_subgraph dist_matrix sat_neighbor_to_if
          ground_station_satellites_in_range curr_sat_id
          ((nti curr_sat_id).getD 0) 0 ground_stations st
    satToGsOuter topology_with_isls nti sat_subgraph dist_matrix sat_neighbor_to_if
      ground_stations ground_station_satellites_in_range rest st'

/-- The destination loop of `_calculate_gs_to_gs_fstate` for one source ground
station, carried out from destination index `dst_idx` onward. -/
def gsToGsInner (topology_with_isls : LEOTopology) (nti : ℕ → Option ℕ)
    (ground_station_satellites_in_range : List (List (ℚ × ℕ)))
    (dist_satellite_to_ground_station : DCache)
    (src_idx : ℕ) (src_gs : GroundStation) (dst_idx : ℕ) (dsts : List GroundStation)
    (fstate : FState) : FState :=
  match dsts with
  | [] => fstate
  | dst_gs :: rest =>
    if src_idx = dst_idx then
      gsToGsInner topology_with_isls nti ground_station_satellites_in_range
        dist_satellite_to_ground_station src_idx src_gs (dst_idx + 1) rest fstate
    else if src_idx ≥ ground_station_satellites_in_range.length then
      gsToGsInner topology_with_isls nti ground_station_satellites_in_range
        dist_satellite_to_ground_station src_idx src_gs (dst_idx + 1) rest fstate
    else
      let possible_src_sats := ground_station_satellites_in_range.getD src_idx []
      let possibilities := List.insertionSort pairLe
        (possible_src_sats.filterMap (fun visibility_info =>
          if (nti visibility_info.2).isSome then
            match dist_satellite_to_ground_station (visibility_info.2, dst_gs.id) with
            | some (some dist_entry_sat_to_dst_gs) =>
              some (visibility_info.1 + dist_entry_sat_to_dst_gs, visibility_info.2)
            | _ => none
          else none))
      let next_hop_decision : FVal :=
        match possibilities with
        | [] => (-1, -1, -1)
        | (_, src_sat_id) :: _ =>
          match topology_with_isls.get_satellite src_sat_id with
          | some entry_satellite =>
            ((src_sat_id : ℤ), 0, (entry_satellite.number_isls : ℤ))
          | none => (-1, -1, -1)
      gsToGsInner topology_with_isls nti ground_station_satellites_in_range
        dist_satellite_to_ground_station src_idx src_gs (dst_idx + 1) rest
        (mupd fstate (src_gs.id, dst_gs.id) next_hop_decision)

/-- The source loop of `_calculate_gs_to_gs_fstate`. -/
def gsToGsOuter (topology_with_isls : LEOTopology) (nti : ℕ → Option ℕ)
    (ground_stations : List GroundStation)
    (ground_station_satellites_in_range : List (List (ℚ × ℕ)))
    (dist_satellite_to_ground_station : DCache)
    (src_idx : ℕ) (srcs : List GroundStation) (fstate : FState) : FState :=
  match srcs with
  | [] => fstate
  | src_gs :: rest =>
    let fstate' := gsToGsInner topology_with_isls nti ground_station_satellites_in_range
      dist_satellite_to_ground_station src_idx src_gs 0 ground_stations fstate
    gsToGsOuter topology_with_isls nti ground_stations ground_station_satellites_in_range
      dist_satellite_to_ground_station (src_idx + 1) rest fstate'

/-- Embedding of `calculate_fstate_shortest_path_object_no_gs_relay`.
`fw_result` is the oracle for `nx.floyd_warshall_numpy` on the satellite-only
subgraph; `fw_result = none` models the call raising, which the source catches
and turns into an empty forwarding state. -/
def calculate_fstate_shortest_path_object_no_gs_relay
    (topology_with_isls : LEOTopology) (ground_stations : List GroundStation)
    (ground_station_satellites_in_range : List (List (ℚ × ℕ)))
    (fw_result : Option (ℕ → ℕ → Option ℚ)) : FState :=
  let snids := satellite_node_ids topology_with_isls
  if snids.isEmpty then (fun _ => none)
  else
    let nti := node_to_index topology_with_isls
    let satellite_only_subgraph := topology_with_isls.graph.subgraph snids
    if satellite_only_subgraph.nodes.isEmpty then (fun _ => none)
    else
      match fw_result with
      | none => (fun _ => none)
      | some dist_matrix =>
        let st := satToGsOuter topology_with_isls nti satellite_only_subgraph dist_matrix
          topology_with_isls.sat_neighbor_to_if ground_stations
          ground_station_satellites_in_range snids ((fun _ => none), (fun _ => none))
        gsToGsOuter topology_with_isls nti ground_stations
          ground_station_satellites_in_range st.1 0 ground_stations st.2

/-- The `while` loop of `get_path` in `post_analysis/graph_tools.py`, with an
explicit fuel argument; the fuel never runs out before the 200-node bound below
fires, since the path grows by one node per iteration. -/
def get_path_loop (forward_state : ℕ × ℕ → Option ℕ) (dst : ℕ) :
    ℕ → List ℕ → ℕ → Option (List ℕ)
  | fuel, path, current_hop =>
    if current_hop = dst then some path
    else
      match fuel with
      | 0 => none
      | fuel' + 1 =>
        match forward_state (current_hop, dst) with
        | none => none
        | some next_hop =>
          if next_hop ∈ path then none
          else
            let path' := path ++ [next_hop]
            if path'.length > 200 then none
            else get_path_loop forward_state dst fuel' path' next_hop

/-- Embedding of `get_path`: hop-by-hop path reconstruction with missing-entry,
loop and hop-count guards. -/
def get_path (src dst : ℕ) (forward_state : ℕ × ℕ → Option ℕ) : Option (List ℕ) :=
  if src = dst then some [src]
  else
    if (forward_state (src, dst)).isSome then
      get_path_loop forward_state dst 201 [src] src
    else none

/-- A forwarding value of the topological resolver: either the direct-GSL
marker `("GSL", gs_id)` or a local ISL interface index. -/
inductive TopoEntry where
  | gsl (gsId : ℕ)
  | iface (i : ℤ)
deriving DecidableEq, Repr

/-- The forwarding-state mapping of the topological resolver. -/
abbrev FStateT := ℕ × ℕ → Option TopoEntry

/-- Embedding of the topological `_get_satellite_possibilities`: when the
distance matrix is unavailable (`dist_matrix = None`, i.e. the internal
Floyd-Warshall call raised), only direct GSL candidates are kept. -/
def topoGetSatellitePossibilities (possible_dst_sats : List (ℚ × ℕ)) (curr_sat_idx : ℕ)
    (nti : ℕ → Option ℕ) (dist_matrix : Option (ℕ → ℕ → Option ℚ)) : List (ℚ × ℕ) :=
  let possibilities := possible_dst_sats.filterMap (fun visibility_info =>
    match nti visibility_info.2 with
    | none => none
    | some visible_sat_idx =>
      match dist_matrix with
      | some dm =>
        match dm curr_sat_idx visible_sat_idx with
        | none => none
        | some dist_curr_to_visible_sat =>
          some (dist_curr_to_visible_sat + visibility_info.1, visibility_info.2)
      | none =>
        if curr_sat_idx = visible_sat_idx then
          some (visibility_info.1, visibility_info.2)
        else none)
  List.insertionSort pairLe possibilities

/-- Embedding of the topological `_get_next_hop_decision`. `sp_oracle` models
`nx.shortest_path` on the satellite subgraph (`none` models `NetworkXNoPath` /
`NetworkXError`, which the source catches). A result of `none` means the caller
records no fstate entry for the pair. -/
def topoGetNextHopDecision (possibilities : List (ℚ × ℕ)) (curr_sat_id : ℕ)
    (sat_subgraph : SatGraph) (sp_oracle : ℕ → ℕ → Option (List ℕ))
    (sat_neighbor_to_if : ℕ × ℕ → Option ℤ) (dst_gs_node_id : ℕ) :
    Option (TopoEntry × ℚ) :=
  match possibilities with
  | [] => none
  | (best_distance, best_dst_sat_id) :: _ =>
    if curr_sat_id = best_dst_sat_id then
      some (TopoEntry.gsl dst_gs_node_id, best_distance)
    else
      if curr_sat_id ∈ sat_subgraph.nodes ∧ best_dst_sat_id ∈ sat_subgraph.nodes then
        match sp_oracle curr_sat_id best_dst_sat_id with
        | none => none
        | some path =>
          if h : path.length > 1 then
            let next_hop_sat_id := path.get ⟨1, h⟩
            match sat_neighbor_to_if (curr_sat_id, next_hop_sat_id) with
            | some interface => some (TopoEntry.iface interface, best_distance)
            | none => none
          else none
      else none

/-- The ground-station loop of the topological `_calculate_sat_to_gs_fstate`
for one current satellite; entries are recorded only when the decision is not
`None`. The state is `(dist_satellite_to_ground_station, fstate)`. -/
def topoSatToGsInner (nti : ℕ → Option ℕ) (sat_subgraph : SatGraph)
    (dist_matrix : Option (ℕ → ℕ → Option ℚ)) (sp_oracle : ℕ → ℕ → Option (List ℕ))
    (sat_neighbor_to_if : ℕ × ℕ → Option ℤ)
    (ground_station_satellites_in_range : List (List (ℚ × ℕ)))
    (curr_sat_id curr_sat_idx : ℕ) (gs_idx : ℕ) (gss : List GroundStation)
    (st : DCache × FStateT) : DCache × FStateT :=
  match gss with
  | [] => st
  | dst_gs :: rest =>
    if gs_idx ≥ ground_station_satellites_in_range.length then
      topoSatToGsInner nti sat_subgraph dist_matrix sp_oracle sat_neighbor_to_if
        ground_station_satellites_in_range curr_sat_id curr_sat_idx (gs_idx + 1) rest st
    else
      let possible_dst_sats := ground_station_satellites_in_range.getD gs_idx []
      let possibilities :=
        topoGetSatellitePossibilities possible_dst_sats curr_sat_idx nti dist_matrix
      let st' :=
        match topoGetNextHopDecision possibilities curr_sat_id sat_subgraph sp_oracle
          sat_neighbor_to_if dst_gs.id with
        | none => st
        | some (next_hop_decision, distance_to_ground_station_m) =>
          (mupd st.1 (curr_sat_id, dst_gs.id) (some distance_to_ground_station_m),
           mupd st.2 (curr_sat_id, dst_gs.id) next_hop_decision)
      topoSatToGsInner nti sat_subgraph dist_matrix sp_oracle sat_neighbor_to_if
        ground_station_satellites_in_range curr_sat_id curr_sat_idx (gs_idx + 1) rest st'

/-- The satellite loop of the topological `_calculate_sat_to_gs_fstate`. -/
def topoSatToGsOuter (topology_with_isls : LEOTopology) (nti : ℕ → Option ℕ)
    (sat_subgraph : SatGraph) (dist_matrix : Option (ℕ → ℕ → Option ℚ))
    (sp_oracle : ℕ → ℕ → Option (List ℕ)) (sat_neighbor_to_if : ℕ × ℕ → Option ℤ)
    (ground_stations : List GroundStation)
    (ground_station_satellites_in_range : List (List (ℚ × ℕ)))
    (sats : List ℕ) (st : DCache × FStateT) : DCache × FStateT :=
  match sats with
  | [] => st
  | curr_sat_id :: rest =>
    let st' :=
      match topology_with_isls.get_satellite curr_sat_id with
      | none => st
      | some _ =>
        topoSatToGsInner nti sat_subgraph dist_matrix sp_oracle sat_neighbor_to_if
          ground_station_satellites_in_range curr_sat_id
          ((nti curr_sat_id).getD 0) 0 ground_stations st
    topoSatToGsOuter topology_with_isls nti sat_subgraph dist_matrix sp_oracle
      sat_neighbor_to_if ground_stations ground_station_satellites_in_range rest st'

/-- Embedding of `calculate_fstate_topological_routing_no_gs_relay`.
`fw_result` is the oracle for the Floyd-Warshall call made inside the
topological `_calculate_sat_to_gs_fstate` (on failure the source falls back to
`dist_matrix = None`); `sp_oracle` models `nx.shortest_path`. At `t = 0` the
source additionally assigns 6G-RUPA addresses and fills per-satellite neighbor
forwarding tables; those steps mutate satellite objects only and do not affect
the returned fstate, so the embedding keeps only their effect on the
`graph_has_changed` flag, which `t = 0` forces to `True`. The renumbering step
(step 3) is a no-op placeholder in the source. -/
def calculate_fstate_topological_routing_no_gs_relay
    (topology_with_isls : LEOTopology) (ground_stations : List GroundStation)
    (ground_station_satellites_in_range : List (List (ℚ × ℕ)))
    (time_since_epoch_ns : ℕ) (prev_fstate : Option FStateT) (graph_has_changed : Bool)
    (fw_result : Option (ℕ → ℕ → Option ℚ))
    (sp_oracle : ℕ → ℕ → Option (List ℕ)) : FStateT :=
  let snids := satellite_node_ids topology_with_isls
  if snids.isEmpty then (fun _ => none)
  else
    let satellite_only_subgraph := topology_with_isls.graph.subgraph snids
    if satellite_only_subgraph.nodes.isEmpty then (fun _ => none)
    else
      let graph_has_changed :=
        if time_since_epoch_ns = 0 then true else graph_has_changed
      match prev_fstate, graph_has_changed with
      | some prev, false => prev
      | _, _ =>
        let nti := node_to_index topology_with_isls
        (topoSatToGsOuter topology_with_isls nti satellite_only_subgraph fw_result
          sp_oracle topology_with_isls.sat_neighbor_to_if ground_stations
          ground_station_satellites_in_range snids
          ((fun _ => none), (fun _ => none))).2

/-- Modelled from the spec: `topological_network_address.py` is not among the
sources, so the topological (6G-RUPA) address is modelled from §3 of the spec:
it "encodes shell id, subnet index, and a satellite/ground-station
discriminator bit" and carries the device identity used as a forwarding-table
key; it "supports serialization to/from a single integer". -/
structure TopologicalNetworkAddress where
  shell_id : ℕ
  subnet_index : ℕ
  is_satellite : Bool
  device_id : ℕ
deriving DecidableEq, Repr

/-- Modelled from the spec: the single-shell address assigned to satellite `id`
at `t = 0` (`TopologicalNetworkAddress.from_6grupa`): shell 0, subnet 0,
satellite discriminator set. -/
def TopologicalNetworkAddress.from_6grupa (id : ℕ) : TopologicalNetworkAddress :=
  ⟨0, 0, true, id⟩

/-- Modelled from the spec: serialization of an address to a single integer.
Field packing (low to high bits): device id (32 bits), discriminator bit,
subnet index (15 bits), shell id. -/
def TopologicalNetworkAddress.to_integer (a : TopologicalNetworkAddress) : ℕ :=
  a.device_id +
    2 ^ 32 * ((if a.is_satellite then 1 else 0) + 2 * (a.subnet_index + 2 ^ 15 * a.shell_id))

/-- Modelled from the spec: reconstruction of an address from its serialized
integer form. -/
def TopologicalNetworkAddress.from_integer (n : ℕ) : TopologicalNetworkAddress :=
  let device_id := n % 2 ^ 32
  let r := n / 2 ^ 32
  let is_satellite := r % 2 = 1
  let r2 := r / 2
  ⟨r2 / 2 ^ 15, r2 % 2 ^ 15, is_satellite, device_id⟩

/-! Helper lemmas about the sorting order and the candidate list. -/

theorem pairLe_refl (a : ℚ × ℕ) : pairLe a a := Or.inr ⟨rfl, le_refl _⟩

theorem sort_head_le {l : List (ℚ × ℕ)} {hd : ℚ × ℕ} {tl : List (ℚ × ℕ)}
    (hsort : List.insertionSort pairLe l = hd :: tl) {x : ℚ × ℕ} (hx : x ∈ l) :
    pairLe hd x := by
  have hs := List.sorted_insertionSort pairLe l
  rw [hsort] at hs
  have hmem : x ∈ List.insertionSort pairLe l := (List.mem_insertionSort pairLe).mpr hx
  rw [hsort] at hmem
  rcases List.mem_cons.mp hmem with h | h
  · exact h ▸ pairLe_refl hd
  · exact (List.sorted_cons.mp hs).1 x h

theorem mem_getSatellitePossibilities {pds : List (ℚ × ℕ)} {ci : ℕ}
    {nti : ℕ → Option ℕ} {dm : ℕ → ℕ → Option ℚ} {gd : ℚ} {vs : ℕ} {j : ℕ} {d : ℚ}
    (hmem : (gd, vs) ∈ pds) (hj : nti vs = some j) (hd : dm ci j = some d) :
    (d + gd, vs) ∈ getSatellitePossibilities pds ci nti dm := by
  unfold getSatellitePossibilities
  refine (List.mem_insertionSort pairLe).mpr ?_
  refine List.mem_filterMap.mpr ⟨(gd, vs), hmem, ?_⟩
  simp only [hj, hd]

/-! Helper lemmas about dictionary update. -/

theorem mupd_self {κ υ : Type} [DecidableEq κ] (m : κ → Option υ) (k : κ) (v : υ) :
    mupd m k v k = some v := by simp [mupd]

theorem mupd_ne {κ υ : Type} [DecidableEq κ] (m : κ → Option υ) (k : κ) (v : υ)
    {x : κ} (h : x ≠ k) : mupd m k v x = m x := by simp [mupd, h]

theorem mupd_isSome {κ υ : Type} [DecidableEq κ] (m : κ → Option υ) (k : κ) (v : υ)
    (x : κ) : (mupd m k v x).isSome ↔ x = k ∨ (m x).isSome := by
  by_cases h : x = k <;> simp [mupd, h]

/-! Helper lemmas about the neighbor-minimization fold in
`_handle_multihop_path`. -/

/-- The candidate value `link_weight + D[neighbor, dst_sat]` a neighbor
contributes in `_handle_multihop_path`, `none` when the neighbor is skipped. -/
def neighborVal (curr_sat_id dst_sat_idx : ℕ) (sat_subgraph : SatGraph)
    (nti : ℕ → Option ℕ) (dist_matrix : ℕ → ℕ → Option ℚ) (n : ℕ) : Option ℚ :=
  match nti n with
  | none => none
  | some neighbor_idx =>
    match sat_subgraph.edgeWeight curr_sat_id n with
    | none => none
    | some link_weight =>
      match dist_matrix neighbor_idx dst_sat_idx with
      | none => none
      | some dist_neighbor_to_dst_sat => some (link_weight + dist_neighbor_to_dst_sat)

theorem multihopStep_of_none {c ei : ℕ} {g : SatGraph} {nti : ℕ → Option ℕ}
    {dm : ℕ → ℕ → Option ℚ} {ifm : ℕ × ℕ → Option ℤ} {n : ℕ}
    (h : neighborVal c ei g nti dm n = none) (st : FVal × Option ℚ) :
    multihopStep c ei g nti dm ifm st n = st := by
  unfold neighborVal at h
  unfold multihopStep
  cases h1 : nti n with
  | none => rfl
  | some ni =>
    rw [h1] at h
    dsimp only at h ⊢
    cases h2 : g.edgeWeight c n with
    | none => rfl
    | some w =>
      rw [h2] at h
      dsimp only at h ⊢
      cases h3 : dm ni ei with
      | none => rfl
      | some dq => rw [h3] at h; exact absurd h (by simp)

theorem multihopStep_of_some {c ei : ℕ} {g : SatGraph} {nti : ℕ → Option ℕ}
    {dm : ℕ → ℕ → Option ℚ} {ifm : ℕ × ℕ → Option ℤ} {n : ℕ} {v : ℚ}
    (h : neighborVal c ei g nti dm n = some v) (st : FVal × Option ℚ) :
    multihopStep c ei g nti dm ifm st n =
      if infLt v st.2 then
        (((n : ℤ), (ifm (c, n)).getD (-1), (ifm (n, c)).getD (-1)), some v)
      else st := by
  unfold neighborVal at h
  unfold multihopStep
  cases h1 : nti n with
  | none => rw [h1] at h; exact absurd h (by simp)
  | some ni =>
    rw [h1] at h
    dsimp only at h ⊢
    cases h2 : g.edgeWeight c n with
    | none => rw [h2] at h; exact absurd h (by simp)
    | some w =>
      rw [h2] at h
      dsimp only at h ⊢
      cases h3 : dm ni ei with
      | none => rw [h3] at h; exact absurd h (by simp)
      | some dq =>
        rw [h3] at h
        simp only [Option.some.injEq] at h
        simp only [h]

theorem foldl_multihop_mono {c ei : ℕ} {g : SatGraph} {nti : ℕ → Option ℕ}
    {dm : ℕ → ℕ → Option ℚ} {ifm : ℕ × ℕ → Option ℤ} :
    ∀ (l : List ℕ) (st : FVal × Option ℚ) (q : ℚ), st.2 = some q →
      ∃ b, (l.foldl (multihopStep c ei g nti dm ifm) st).2 = some b ∧ b ≤ q := by
  intro l
  induction l with
  | nil => intro st q h; exact ⟨q, h, le_refl q⟩
  | cons n t ih =>
    intro st q h
    simp only [List.foldl_cons]
    cases hv : neighborVal c ei g nti dm n with
    | none => rw [multihopStep_of_none hv st]; exact ih st q h
    | some v =>
      rw [multihopStep_of_some hv st]
      by_cases hlt : infLt v st.2
      · rw [if_pos hlt]
        obtain ⟨b, hb, hle⟩ :=
          ih (((n : ℤ), (ifm (c, n)).getD (-1), (ifm (n, c)).getD (-1)), some v) v rfl
        refine ⟨b, hb, hle.trans ?_⟩
        rw [h] at hlt
        simp only [infLt, decide_eq_true_eq] at hlt
        exact le_of_lt hlt
      · rw [if_neg hlt]; exact ih st q h

theorem foldl_multihop_le {c ei : ℕ} {g : SatGraph} {nti : ℕ → Option ℕ}
    {dm : ℕ → ℕ → Option ℚ} {ifm : ℕ × ℕ → Option ℤ} :
    ∀ (l : List ℕ) (st : FVal × Option ℚ) (n : ℕ), n ∈ l →
      ∀ v, neighborVal c ei g nti dm n = some v →
        ∃ b, (l.foldl (multihopStep c ei g nti dm ifm) st).2 = some b ∧ b ≤ v := by
  intro l
  induction l with
  | nil => intro st n hn; exact absurd hn (List.not_mem_nil n)
  | cons m t ih =>
    intro st n hn v hv
    simp only [List.foldl_cons]
    rcases List.mem_cons.mp hn with rfl | hnt
    · rw [multihopStep_of_some hv st]
      by_cases hlt : infLt v st.2
      · rw [if_pos hlt]
        exact foldl_multihop_mono t _ v rfl
      · rw [if_neg hlt]
        cases hst : st.2 with
        | none => rw [hst] at hlt; exact absurd rfl hlt
        | some q =>
          rw [hst] at hlt
          simp only [infLt, decide_eq_true_eq] at hlt
          obtain ⟨b, hb, hle⟩ := foldl_multihop_mono t st q hst
          exact ⟨b, hb, hle.trans (not_lt.mp hlt)⟩
    · cases hvm : neighborVal c ei g nti dm m with
      | none => rw [multihopStep_of_none hvm st]; exact ih st n hnt v hv
      | some vm =>
        rw [multihopStep_of_some hvm st]
        by_cases hlt : infLt vm st.2
        · rw [if_pos hlt]; exact ih _ n hnt v hv
        · rw [if_neg hlt]; exact ih st n hnt v hv

theorem foldl_multihop_achieve {c ei : ℕ} {g : SatGraph} {nti : ℕ → Option ℕ}
    {dm : ℕ → ℕ → Option ℚ} {ifm : ℕ × ℕ → Option ℤ} :
    ∀ (l : List ℕ) (st : FVal × Option ℚ),
      (l.foldl (multihopStep c ei g nti dm ifm) st = st) ∨
      ∃ n ∈ l, ∃ v, neighborVal c ei g nti dm n = some v ∧
        l.foldl (multihopStep c ei g nti dm ifm) st =
          (((n : ℤ), (ifm (c, n)).getD (-1), (ifm (n, c)).getD (-1)), some v) := by
  intro l
  induction l with
  | nil => intro st; exact Or.inl rfl
  | cons m t ih =>
    intro st
    simp only [List.foldl_cons]
    cases hvm : neighborVal c ei g nti dm m with
    | none =>
      rw [multihopStep_of_none hvm st]
      rcases ih st with h | ⟨n, hn, v, hv, he⟩
      · exact Or.inl h
      · exact Or.inr ⟨n, List.mem_cons_of_mem m hn, v, hv, he⟩
    | some vm =>
      rw [multihopStep_of_some hvm st]
      by_cases hlt : infLt vm st.2
      · rw [if_pos hlt]
        rcases ih ((((m : ℤ), (ifm (c, m)).getD (-1), (ifm (m, c)).getD (-1)), some vm)) with
          h | ⟨n, hn, v, hv, he⟩
        · exact Or.inr ⟨m, List.mem_cons_self m t, vm, hvm, h⟩
        · exact Or.inr ⟨n, List.mem_cons_of_mem m hn, v, hv, he⟩
      · rw [if_neg hlt]
        rcases ih st with h | ⟨n, hn, v, hv, he⟩
        · exact Or.inl h
        · exact Or.inr ⟨n, List.mem_cons_of_mem m hn, v, hv, he⟩

/-! Helper lemmas tracking the `fstate` / distance-cache writes through the
loops of `_calculate_sat_to_gs_fstate` and `_calculate_gs_to_gs_fstate`. -/

/-- The `(next_hop_decision, distance)` pair computed for current satellite
`S` (at matrix index `Sidx`) and the ground station at visibility index `i`
with id `gid`. -/
def spDecision (T : LEOTopology) (nti : ℕ → Option ℕ) (sub : SatGraph)
    (dm : ℕ → ℕ → Option ℚ) (ifm : ℕ × ℕ → Option ℤ) (rng : List (List (ℚ × ℕ)))
    (S Sidx i gid : ℕ) : FVal × Option ℚ :=
  getNextHopDecision (getSatellitePossibilities (rng.getD i []) Sidx nti dm)
    S nti sub dm ifm T gid

theorem satToGsInner_apply_of_ne (T : LEOTopology) (nti : ℕ → Option ℕ)
    (sub : SatGraph) (dm : ℕ → ℕ → Option ℚ) (ifm : ℕ × ℕ → Option ℤ)
    (rng : List (List (ℚ × ℕ))) (S Sidx : ℕ) :
    ∀ (l : List GroundStation) (i : ℕ) (st : DCache × FState) (k : ℕ × ℕ),
      (∀ g ∈ l, k ≠ (S, g.id)) →
      (satToGsInner T nti sub dm ifm rng S Sidx i l st).1 k = st.1 k ∧
      (satToGsInner T nti sub dm ifm rng S Sidx i l st).2 k = st.2 k := by
  intro l
  induction l with
  | nil => intro i st k _; exact ⟨rfl, rfl⟩
  | cons g t ih =>
    intro i st k hk
    have hkg : k ≠ (S, g.id) := hk g (List.mem_cons_self g t)
    have hkt : ∀ g2 ∈ t, k ≠ (S, g2.id) := fun g2 h2 => hk g2 (List.mem_cons_of_mem g h2)
    simp only [satToGsInner]
    by_cases hge : i ≥ rng.length
    · rw [if_pos hge]; exact ih (i + 1) st k hkt
    · rw [if_neg hge]
      obtain ⟨h1, h2⟩ := ih (i + 1) _ k hkt
      exact ⟨h1.trans (mupd_ne _ _ _ hkg), h2.trans (mupd_ne _ _ _ hkg)⟩

theorem satToGsInner_at (T : LEOTopology) (nti : ℕ → Option ℕ)
    (sub : SatGraph) (dm : ℕ → ℕ → Option ℚ) (ifm : ℕ × ℕ → Option ℤ)
    (rng : List (List (ℚ × ℕ))) (S Sidx : ℕ) :
    ∀ (l : List GroundStation) (i : ℕ) (st : DCache × FState) (j : ℕ) (g : GroundStation),
      l[j]? = some g → i + j < rng.length →
      (∀ j2 g2, l[j2]? = some g2 → j2 ≠ j → g2.id ≠ g.id) →
      (satToGsInner T nti sub dm ifm rng S Sidx i l st).1 (S, g.id) =
        some (spDecision T nti sub dm ifm rng S Sidx (i + j) g.id).2 ∧
      (satToGsInner T nti sub dm ifm rng S Sidx i l st).2 (S, g.id) =
        some (spDecision T nti sub dm ifm rng S Sidx (i + j) g.id).1 := by
  intro l
  induction l with
  | nil => intro i st j g hj; simp at hj
  | cons g0 t ih =>
    intro i st j g hj hlen huniq
    cases j with
    | zero =>
      rw [List.getElem?_cons_zero, Option.some.injEq] at hj
      have hj' := hj.symm
      subst hj'
      rw [Nat.add_zero] at hlen ⊢
      simp only [satToGsInner]
      rw [if_neg (by omega)]
      have hne : ∀ g2 ∈ t, (S, g.id) ≠ (S, g2.id) := by
        intro g2 h2
        obtain ⟨j2, hj2⟩ := List.mem_iff_getElem?.mp h2
        have := huniq (j2 + 1) g2 (by simpa using hj2) (by omega)
        simp only [ne_eq, Prod.mk.injEq, not_and]
        intro _
        exact fun hcontra => this (hcontra.symm)
      obtain ⟨h1, h2⟩ := satToGsInner_apply_of_ne T nti sub dm ifm rng S Sidx t (i + 1) _
        (S, g.id) hne
      refine ⟨h1.trans ?_, h2.trans ?_⟩
      · exact mupd_self _ _ _
      · exact mupd_self _ _ _
    | succ j' =>
      rw [List.getElem?_cons_succ] at hj
      have huniq' : ∀ j2 g2, t[j2]? = some g2 → j2 ≠ j' → g2.id ≠ g.id := by
        intro j2 g2 hj2 hne
        exact huniq (j2 + 1) g2 (by simpa using hj2) (by omega)
      simp only [satToGsInner]
      rw [show i + (j' + 1) = i + 1 + j' by omega]
      by_cases hge : i ≥ rng.length
      · rw [if_pos hge]
        exact ih (i + 1) st j' g hj (by omega) huniq'
      · rw [if_neg hge]
        exact ih (i + 1) _ j' g hj (by omega) huniq'

theorem satToGsInner_isSome (T : LEOTopology) (nti : ℕ → Option ℕ)
    (sub : SatGraph) (dm : ℕ → ℕ → Option ℚ) (ifm : ℕ × ℕ → Option ℤ)
    (rng : List (List (ℚ × ℕ))) (S Sidx : ℕ) :
    ∀ (l : List GroundStation) (i : ℕ) (st : DCache × FState) (k : ℕ × ℕ),
      ((satToGsInner T nti sub dm ifm rng S Sidx i l st).2 k).isSome ↔
        (st.2 k).isSome ∨
          ∃ j g, l[j]? = some g ∧ i + j < rng.length ∧ k = (S, g.id) := by
  intro l
  induction l with
  | nil => intro i st k; simp [satToGsInner]
  | cons g0 t ih =>
    intro i st k
    simp only [satToGsInner]
    by_cases hge : i ≥ rng.length
    · rw [if_pos hge, ih (i + 1) st k]
      constructor
      · rintro (h | ⟨j, g, hj, hlen, hk⟩)
        · exact Or.inl h
        · exact Or.inr ⟨j + 1, g, by simpa using hj, by omega, hk⟩
      · rintro (h | ⟨j, g, hj, hlen, hk⟩)
        · exact Or.inl h
        · cases j with
          | zero => omega
          | succ j' =>
            rw [List.getElem?_cons_succ] at hj
            exact Or.inr ⟨j', g, hj, by omega, hk⟩
    · rw [if_neg hge, ih (i + 1) _ k]
      rw [mupd_isSome]
      constructor
      · rintro ((hk | h) | ⟨j, g, hj, hlen, hk⟩)
        · exact Or.inr ⟨0, g0, List.getElem?_cons_zero, by omega, hk⟩
        · exact Or.inl h
        · exact Or.inr ⟨j + 1, g, by simpa using hj, by omega, hk⟩
      · rintro (h | ⟨j, g, hj, hlen, hk⟩)
        · exact Or.inl (Or.inr h)
        · cases j with
          | zero =>
            rw [List.getElem?_cons_zero, Option.some.injEq] at hj
            subst hj
            exact Or.inl (Or.inl hk)
          | succ j' =>
            rw [List.getElem?_cons_succ] at hj
            exact Or.inr ⟨j', g, hj, by omega, hk⟩

theorem satToGsOuter_apply_of_ne (T : LEOTopology) (nti : ℕ → Option ℕ)
    (sub : SatGraph) (dm : ℕ → ℕ → Option ℚ) (ifm : ℕ × ℕ → Option ℤ)
    (gss : List GroundStation) (rng : List (List (ℚ × ℕ))) :
    ∀ (sats : List ℕ) (st : DCache × FState) (k : ℕ × ℕ),
      (∀ s ∈ sats, k.1 ≠ s) →
      (satToGsOuter T nti sub dm ifm gss rng sats st).1 k = st.1 k ∧
      (satToGsOuter T nti sub dm ifm gss rng sats st).2 k = st.2 k := by
  intro sats
  induction sats with
  | nil => intro st k _; exact ⟨rfl, rfl⟩
  | cons s rest ih =>
    intro st k hk
    have hks : k.1 ≠ s := hk s (List.mem_cons_self s rest)
    have hkr : ∀ s2 ∈ rest, k.1 ≠ s2 := fun s2 h2 => hk s2 (List.mem_cons_of_mem s h2)
    simp only [satToGsOuter]
    cases hsat : T.get_satellite s with
    | none => exact ih st k hkr
    | some sat =>
      have hinner := satToGsInner_apply_of_ne T nti sub dm ifm rng s ((nti s).getD 0)
        gss 0 st k (fun g _ => by
          intro hcontra
          exact hks (by rw [hcontra]))
      obtain ⟨h1, h2⟩ := ih _ k hkr
      exact ⟨h1.trans hinner.1, h2.trans hinner.2⟩

theorem satToGsOuter_at (T : LEOTopology) (nti : ℕ → Option ℕ)
    (sub : SatGraph) (dm : ℕ → ℕ → Option ℚ) (ifm : ℕ × ℕ → Option ℤ)
    (gss : List GroundStation) (rng : List (List (ℚ × ℕ))) :
    ∀ (sats : List ℕ) (st : DCache × FState) (S : ℕ), sats.Nodup → S ∈ sats →
      (T.get_satellite S).isSome →
      ∀ (j : ℕ) (g : GroundStation), gss[j]? = some g → j < rng.length →
      (∀ j2 g2, gss[j2]? = some g2 → j2 ≠ j → g2.id ≠ g.id) →
      (satToGsOuter T nti sub dm ifm gss rng sats st).1 (S, g.id) =
        some (spDecision T nti sub dm ifm rng S ((nti S).getD 0) j g.id).2 ∧
      (satToGsOuter T nti sub dm ifm gss rng sats st).2 (S, g.id) =
        some (spDecision T nti sub dm ifm rng S ((nti S).getD 0) j g.id).1 := by
  intro sats
  induction sats with
  | nil => intro st S _ hS; exact absurd hS (List.not_mem_nil S)
  | cons s rest ih =>
    intro st S hnd hS hsome j g hj hlen huniq
    simp only [satToGsOuter]
    by_cases hss : s = S
    · subst hss
      cases hsat : T.get_satellite s with
      | none => rw [hsat] at hsome; exact absurd hsome (by simp)
      | some sat =>
        have hsrest : s ∉ rest := (List.nodup_cons.mp hnd).1
        have hne : ∀ s2 ∈ rest, (s, g.id).1 ≠ s2 := fun s2 h2 => by
          dsimp only
          intro hcontra
          exact hsrest (by rw [hcontra]; exact h2)
        have hat := satToGsInner_at T nti sub dm ifm rng s ((nti s).getD 0)
          gss 0 st j g hj (by omega) huniq
        rw [Nat.zero_add] at hat
        exact ⟨(satToGsOuter_apply_of_ne T nti sub dm ifm gss rng rest _
            (s, g.id) hne).1.trans hat.1,
          (satToGsOuter_apply_of_ne T nti sub dm ifm gss rng rest _
            (s, g.id) hne).2.trans hat.2⟩
    · have hSrest : S ∈ rest := by
        rcases List.mem_cons.mp hS with h | h
        · exact absurd h.symm hss
        · exact h
      cases hsat : T.get_satellite s with
      | none => exact ih st S (List.nodup_cons.mp hnd).2 hSrest hsome j g hj hlen huniq
      | some sat =>
        exact ih _ S (List.nodup_cons.mp hnd).2 hSrest hsome j g hj hlen huniq

theorem satToGsOuter_isSome (T : LEOTopology) (nti : ℕ → Option ℕ)
    (sub : SatGraph) (dm : ℕ → ℕ → Option ℚ) (ifm : ℕ × ℕ → Option ℤ)
    (gss : List GroundStation) (rng : List (List (ℚ × ℕ))) :
    ∀ (sats : List ℕ) (st : DCache × FState) (k : ℕ × ℕ),
      ((satToGsOuter T nti sub dm ifm gss rng sats st).2 k).isSome ↔
        (st.2 k).isSome ∨
          ∃ s ∈ sats, (T.get_satellite s).isSome ∧
            ∃ j g, gss[j]? = some g ∧ j < rng.length ∧ k = (s, g.id) := by
  intro sats
  induction sats with
  | nil => intro st k; simp [satToGsOuter]
  | cons s rest ih =>
    intro st k
    simp only [satToGsOuter]
    cases hsat : T.get_satellite s with
    | none =>
      rw [ih st k]
      constructor
      · rintro (h | ⟨s2, hs2, hsome2, hrest⟩)
        · exact Or.inl h
        · exact Or.inr ⟨s2, List.mem_cons_of_mem s hs2, hsome2, hrest⟩
      · rintro (h | ⟨s2, hs2, hsome2, hrest⟩)
        · exact Or.inl h
        · rcases List.mem_cons.mp hs2 with rfl | hs2t
          · rw [hsat] at hsome2; exact absurd hsome2 (by simp)
          · exact Or.inr ⟨s2, hs2t, hsome2, hrest⟩
    | some sat =>
      rw [ih _ k, satToGsInner_isSome T nti sub dm ifm rng s ((nti s).getD 0) gss 0 st k]
      constructor
      · rintro ((h | ⟨j, g, hj, hlen, hk⟩) | ⟨s2, hs2, hsome2, hrest⟩)
        · exact Or.inl h
        · exact Or.inr ⟨s, List.mem_cons_self s rest, by simp [hsat],
            j, g, hj, by omega, hk⟩
        · exact Or.inr ⟨s2, List.mem_cons_of_mem s hs2, hsome2, hrest⟩
      · rintro (h | ⟨s2, hs2, hsome2, j, g, hj, hlen, hk⟩)
        · exact Or.inl (Or.inl h)
        · rcases List.mem_cons.mp hs2 with rfl | hs2t
          · exact Or.inl (Or.inr ⟨j, g, hj, by omega, hk⟩)
          · exact Or.inr ⟨s2, hs2t, hsome2, j, g, hj, hlen, hk⟩

theorem gsToGsInner_apply_of_ne (T : LEOTopology) (nti : ℕ → Option ℕ)
    (rng : List (List (ℚ × ℕ))) (dc : DCache) (si : ℕ) (src : GroundStation) :
    ∀ (dsts : List GroundStation) (di : ℕ) (fst : FState) (k : ℕ × ℕ),
      (∀ d ∈ dsts, k ≠ (src.id, d.id)) →
      gsToGsInner T nti rng dc si src di dsts fst k = fst k := by
  intro dsts
  induction dsts with
  | nil => intro di fst k _; rfl
  | cons d0 t ih =>
    intro di fst k hk
    have hkd : k ≠ (src.id, d0.id) := hk d0 (List.mem_cons_self d0 t)
    have hkt : ∀ d2 ∈ t, k ≠ (src.id, d2.id) := fun d2 h2 => hk d2 (List.mem_cons_of_mem d0 h2)
    simp only [gsToGsInner]
    by_cases h1 : si = di
    · rw [if_pos h1]; exact ih (di + 1) fst k hkt
    · rw [if_neg h1]
      by_cases h2 : si ≥ rng.length
      · rw [if_pos h2]; exact ih (di + 1) fst k hkt
      · rw [if_neg h2]
        exact (ih (di + 1) _ k hkt).trans (mupd_ne _ _ _ hkd)

theorem gsToGsInner_isSome (T : LEOTopology) (nti : ℕ → Option ℕ)
    (rng : List (List (ℚ × ℕ))) (dc : DCache) (si : ℕ) (src : GroundStation) :
    ∀ (dsts : List GroundStation) (di : ℕ) (fst : FState) (k : ℕ × ℕ),
      (gsToGsInner T nti rng dc si src di dsts fst k).isSome ↔
        (fst k).isSome ∨
          ∃ j d, dsts[j]? = some d ∧ si ≠ di + j ∧ si < rng.length ∧
            k = (src.id, d.id) := by
  intro dsts
  induction dsts with
  | nil => intro di fst k; simp [gsToGsInner]
  | cons d0 t ih =>
    intro di fst k
    simp only [gsToGsInner]
    by_cases h1 : si = di
    · rw [if_pos h1, ih (di + 1) fst k]
      constructor
      · rintro (h | ⟨j, d, hj, hne, hlen, hk⟩)
        · exact Or.inl h
        · exact Or.inr ⟨j + 1, d, by simpa using hj, by omega, hlen, hk⟩
      · rintro (h | ⟨j, d, hj, hne, hlen, hk⟩)
        · exact Or.inl h
        · cases j with
          | zero => omega
          | succ j2 =>
            rw [List.getElem?_cons_succ] at hj
            exact Or.inr ⟨j2, d, hj, by omega, hlen, hk⟩
    · rw [if_neg h1]
      by_cases h2 : si ≥ rng.length
      · rw [if_pos h2, ih (di + 1) fst k]
        constructor
        · rintro (h | ⟨j, d, hj, hne, hlen, hk⟩)
          · exact Or.inl h
          · omega
        · rintro (h | ⟨j, d, hj, hne, hlen, hk⟩)
          · exact Or.inl h
          · omega
      · rw [if_neg h2, ih (di + 1) _ k, mupd_isSome]
        constructor
        · rintro ((hk | h) | ⟨j, d, hj, hne, hlen, hk⟩)
          · exact Or.inr ⟨0, d0, List.getElem?_cons_zero, by omega, by omega, hk⟩
          · exact Or.inl h
          · exact Or.inr ⟨j + 1, d, by simpa using hj, by omega, hlen, hk⟩
        · rintro (h | ⟨j, d, hj, hne, hlen, hk⟩)
          · exact Or.inl (Or.inr h)
          · cases j with
            | zero =>
              rw [List.getElem?_cons_zero, Option.some.injEq] at hj
              subst hj
              exact Or.inl (Or.inl hk)
            | succ j2 =>
              rw [List.getElem?_cons_succ] at hj
              exact Or.inr ⟨j2, d, hj, by omega, hlen, hk⟩

theorem gsToGsOuter_apply_of_ne (T : LEOTopology) (nti : ℕ → Option ℕ)
    (gss : List GroundStation) (rng : List (List (ℚ × ℕ))) (dc : DCache) :
    ∀ (srcs : List GroundStation) (si : ℕ) (fst : FState) (k : ℕ × ℕ),
      (∀ s ∈ srcs, k.1 ≠ s.id) →
      gsToGsOuter T nti gss rng dc si srcs fst k = fst k := by
  intro srcs
  induction srcs with
  | nil => intro si fst k _; rfl
  | cons s0 rest ih =>
    intro si fst k hk
    have hks : k.1 ≠ s0.id := hk s0 (List.mem_cons_self s0 rest)
    have hkr : ∀ s2 ∈ rest, k.1 ≠ s2.id := fun s2 h2 => hk s2 (List.mem_cons_of_mem s0 h2)
    simp only [gsToGsOuter]
    refine (ih (si + 1) _ k hkr).trans ?_
    exact gsToGsInner_apply_of_ne T nti rng dc si s0 gss 0 fst k (fun d _ => by
      intro hcontra
      exact hks (by rw [hcontra]))

theorem gsToGsOuter_isSome (T : LEOTopology) (nti : ℕ → Option ℕ)
    (gss : List GroundStation) (rng : List (List (ℚ × ℕ))) (dc : DCache) :
    ∀ (srcs : List GroundStation) (si : ℕ) (fst : FState) (k : ℕ × ℕ),
      (gsToGsOuter T nti gss rng dc si srcs fst k).isSome ↔
        (fst k).isSome ∨
          ∃ i s, srcs[i]? = some s ∧
            ∃ j d, gss[j]? = some d ∧ si + i ≠ j ∧ si + i < rng.length ∧
              k = (s.id, d.id) := by
  intro srcs
  induction srcs with
  | nil => intro si fst k; simp [gsToGsOuter]
  | cons s0 rest ih =>
    intro si fst k
    simp only [gsToGsOuter]
    rw [ih (si + 1) _ k, gsToGsInner_isSome T nti rng dc si s0 gss 0 fst k]
    constructor
    · rintro ((h | ⟨j, d, hj, hne, hlen, hk⟩) | ⟨i, s, hi, j, d, hj, hne, hlen, hk⟩)
      · exact Or.inl h
      · exact Or.inr ⟨0, s0, List.getElem?_cons_zero, j, d, hj, by omega, by omega, hk⟩
      · exact Or.inr ⟨i + 1, s, by simpa using hi, j, d, hj, by omega, by omega, hk⟩
    · rintro (h | ⟨i, s, hi, j, d, hj, hne, hlen, hk⟩)
      · exact Or.inl (Or.inl h)
      · cases i with
        | zero =>
          rw [List.getElem?_cons_zero, Option.some.injEq] at hi
          subst hi
          exact Or.inl (Or.inr ⟨j, d, hj, by omega, by omega, hk⟩)
        | succ i2 =>
          rw [List.getElem?_cons_succ] at hi
          exact Or.inr ⟨i2, s, hi, j, d, hj, by omega, by omega, hk⟩

/-! Helper lemmas tracking the writes of the topological resolver loops. -/

/-- The decision the topological resolver computes for current satellite `S`
(at matrix index `Sidx`) and the ground station at visibility index `i` with
id `gid`; `none` means no fstate entry is recorded. -/
def topoDecision (nti : ℕ → Option ℕ) (sub : SatGraph)
    (dmOpt : Option (ℕ → ℕ → Option ℚ)) (sp : ℕ → ℕ → Option (List ℕ))
    (ifm : ℕ × ℕ → Option ℤ) (rng : List (List (ℚ × ℕ)))
    (Sidx : ℕ) (S : ℕ) (i : ℕ) (gid : ℕ) : Option (TopoEntry × ℚ) :=
  topoGetNextHopDecision (topoGetSatellitePossibilities (rng.getD i []) Sidx nti dmOpt)
    S sub sp ifm gid

theorem topoSatToGsInner_apply_of_ne (nti : ℕ → Option ℕ) (sub : SatGraph)
    (dmOpt : Option (ℕ → ℕ → Option ℚ)) (sp : ℕ → ℕ → Option (List ℕ))
    (ifm : ℕ × ℕ → Option ℤ) (rng : List (List (ℚ × ℕ))) (S Sidx : ℕ) :
    ∀ (l : List GroundStation) (i : ℕ) (st : DCache × FStateT) (k : ℕ × ℕ),
      (∀ g ∈ l, k ≠ (S, g.id)) →
      (topoSatToGsInner nti sub dmOpt sp ifm rng S Sidx i l st).2 k = st.2 k := by
  intro l
  induction l with
  | nil => intro i st k _; rfl
  | cons g t ih =>
    intro i st k hk
    have hkg : k ≠ (S, g.id) := hk g (List.mem_cons_self g t)
    have hkt : ∀ g2 ∈ t, k ≠ (S, g2.id) := fun g2 h2 => hk g2 (List.mem_cons_of_mem g h2)
    simp only [topoSatToGsInner]
    by_cases hge : i ≥ rng.length
    · rw [if_pos hge]; exact ih (i + 1) st k hkt
    · rw [if_neg hge]
      cases hdec : topoGetNextHopDecision
        (topoGetSatellitePossibilities (rng.getD i []) Sidx nti dmOpt) S sub sp ifm g.id with
      | none => exact ih (i + 1) st k hkt
      | some p => exact (ih (i + 1) _ k hkt).trans (mupd_ne _ _ _ hkg)

theorem topoSatToGsInner_at_some (nti : ℕ → Option ℕ) (sub : SatGraph)
    (dmOpt : Option (ℕ → ℕ → Option ℚ)) (sp : ℕ → ℕ → Option (List ℕ))
    (ifm : ℕ × ℕ → Option ℤ) (rng : List (List (ℚ × ℕ))) (S Sidx : ℕ) :
    ∀ (l : List GroundStation) (i : ℕ) (st : DCache × FStateT) (j : ℕ)
      (g : GroundStation) (p : TopoEntry × ℚ),
      l[j]? = some g → i + j < rng.length →
      (∀ j2 g2, l[j2]? = some g2 → j2 ≠ j → g2.id ≠ g.id) →
      topoDecision nti sub dmOpt sp ifm rng Sidx S (i + j) g.id = some p →
      (topoSatToGsInner nti sub dmOpt sp ifm rng S Sidx i l st).2 (S, g.id) =
        some p.1 := by
  intro l
  induction l with
  | nil => intro i st j g p hj; simp at hj
  | cons g0 t ih =>
    intro i st j g p hj hlen huniq hdec
    cases j with
    | zero =>
      rw [List.getElem?_cons_zero, Option.some.injEq] at hj
      have hj' := hj.symm
      subst hj'
      rw [Nat.add_zero] at hlen hdec
      simp only [topoSatToGsInner]
      rw [if_neg (by omega)]
      unfold topoDecision at hdec
      rw [hdec]
      have hne : ∀ g2 ∈ t, (S, g.id) ≠ (S, g2.id) := by
        intro g2 h2
        obtain ⟨j2, hj2⟩ := List.mem_iff_getElem?.mp h2
        have := huniq (j2 + 1) g2 (by simpa using hj2) (by omega)
        simp only [ne_eq, Prod.mk.injEq, not_and]
        intro _
        exact fun hcontra => this (hcontra.symm)
      refine (topoSatToGsInner_apply_of_ne nti sub dmOpt sp ifm rng S Sidx t (i + 1) _
        (S, g.id) hne).trans ?_
      exact mupd_self _ _ _
    | succ j' =>
      rw [List.getElem?_cons_succ] at hj
      have huniq' : ∀ j2 g2, t[j2]? = some g2 → j2 ≠ j' → g2.id ≠ g.id := by
        intro j2 g2 hj2 hne
        exact huniq (j2 + 1) g2 (by simpa using hj2) (by omega)
      rw [show i + (j' + 1) = i + 1 + j' by omega] at hdec
      simp only [topoSatToGsInner]
      by_cases hge : i ≥ rng.length
      · rw [if_pos hge]
        exact ih (i + 1) st j' g p hj (by omega) huniq' hdec
      · rw [if_neg hge]
        cases hd0 : topoGetNextHopDecision
          (topoGetSatellitePossibilities (rng.getD i []) Sidx nti dmOpt)
            S sub sp ifm g0.id with
        | none => exact ih (i + 1) st j' g p hj (by omega) huniq' hdec
        | some p0 => exact ih (i + 1) _ j' g p hj (by omega) huniq' hdec

theorem topoSatToGsInner_at_none (nti : ℕ → Option ℕ) (sub : SatGraph)
    (dmOpt : Option (ℕ → ℕ → Option ℚ)) (sp : ℕ → ℕ → Option (List ℕ))
    (ifm : ℕ × ℕ → Option ℤ) (rng : List (List (ℚ × ℕ))) (S Sidx : ℕ) :
    ∀ (l : List GroundStation) (i : ℕ) (st : DCache × FStateT) (j : ℕ)
      (g : GroundStation),
      l[j]? = some g →
      (∀ j2 g2, l[j2]? = some g2 → j2 ≠ j → g2.id ≠ g.id) →
      topoDecision nti sub dmOpt sp ifm rng Sidx S (i + j) g.id = none →
      (topoSatToGsInner nti sub dmOpt sp ifm rng S Sidx i l st).2 (S, g.id) =
        st.2 (S, g.id) := by
  intro l
  induction l with
  | nil => intro i st j g hj; simp at hj
  | cons g0 t ih =>
    intro i st j g hj huniq hdec
    cases j with
    | zero =>
      rw [List.getElem?_cons_zero, Option.some.injEq] at hj
      have hj' := hj.symm
      subst hj'
      rw [Nat.add_zero] at hdec
      have hne : ∀ g2 ∈ t, (S, g.id) ≠ (S, g2.id) := by
        intro g2 h2
        obtain ⟨j2, hj2⟩ := List.mem_iff_getElem?.mp h2
        have := huniq (j2 + 1) g2 (by simpa using hj2) (by omega)
        simp only [ne_eq, Prod.mk.injEq, not_and]
        intro _
        exact fun hcontra => this (hcontra.symm)
      simp only [topoSatToGsInner]
      by_cases hge : i ≥ rng.length
      · rw [if_pos hge]
        exact topoSatToGsInner_apply_of_ne nti sub dmOpt sp ifm rng S Sidx t (i + 1) st
          (S, g.id) hne
      · rw [if_neg hge]
        unfold topoDecision at hdec
        rw [hdec]
        exact topoSatToGsInner_apply_of_ne nti sub dmOpt sp ifm rng S Sidx t (i + 1) st
          (S, g.id) hne
    | succ j' =>
      rw [List.getElem?_cons_succ] at hj
      have hg0 : g0.id ≠ g.id := huniq 0 g0 List.getElem?_cons_zero (by omega)
      have huniq' : ∀ j2 g2, t[j2]? = some g2 → j2 ≠ j' → g2.id ≠ g.id := by
        intro j2 g2 hj2 hne
        exact huniq (j2 + 1) g2 (by simpa using hj2) (by omega)
      rw [show i + (j' + 1) = i + 1 + j' by omega] at hdec
      simp only [topoSatToGsInner]
      by_cases hge : i ≥ rng.length
      · rw [if_pos hge]
        exact ih (i + 1) st j' g hj huniq' hdec
      · rw [if_neg hge]
        cases hd0 : topoGetNextHopDecision
          (topoGetSatellitePossibilities (rng.getD i []) Sidx nti dmOpt)
            S sub sp ifm g0.id with
        | none => exact ih (i + 1) st j' g hj huniq' hdec
        | some p0 =>
          refine (ih (i + 1) _ j' g hj huniq' hdec).trans ?_
          refine mupd_ne _ _ _ ?_
          simp only [ne_eq, Prod.mk.injEq, not_and]
          intro _
          exact fun hcontra => hg0 (hcontra.symm)

theorem topoSatToGsOuter_apply_of_ne (T : LEOTopology) (nti : ℕ → Option ℕ)
    (sub : SatGraph) (dmOpt : Option (ℕ → ℕ → Option ℚ))
    (sp : ℕ → ℕ → Option (List ℕ)) (ifm : ℕ × ℕ → Option ℤ)
    (gss : List GroundStation) (rng : List (List (ℚ × ℕ))) :
    ∀ (sats : List ℕ) (st : DCache × FStateT) (k : ℕ × ℕ),
      (∀ s ∈ sats, k.1 ≠ s) →
      (topoSatToGsOuter T nti sub dmOpt sp ifm gss rng sats st).2 k = st.2 k := by
  intro sats
  induction sats with
  | nil => intro st k _; rfl
  | cons s rest ih =>
    intro st k hk
    have hks : k.1 ≠ s := hk s (List.mem_cons_self s rest)
    have hkr : ∀ s2 ∈ rest, k.1 ≠ s2 := fun s2 h2 => hk s2 (List.mem_cons_of_mem s h2)
    simp only [topoSatToGsOuter]
    cases hsat : T.get_satellite s with
    | none => exact ih st k hkr
    | some sat =>
      refine (ih _ k hkr).trans ?_
      exact topoSatToGsInner_apply_of_ne nti sub dmOpt sp ifm rng s ((nti s).getD 0)
        gss 0 st k (fun g _ => by
          intro hcontra
          exact hks (by rw [hcontra]))

theorem topoSatToGsOuter_at_some (T : LEOTopology) (nti : ℕ → Option ℕ)
    (sub : SatGraph) (dmOpt : Option (ℕ → ℕ → Option ℚ))
    (sp : ℕ → ℕ → Option (List ℕ)) (ifm : ℕ × ℕ → Option ℤ)
    (gss : List GroundStation) (rng : List (List (ℚ × ℕ))) :
    ∀ (sats : List ℕ) (st : DCache × FStateT) (S : ℕ), sats.Nodup → S ∈ sats →
      (T.get_satellite S).isSome →
      ∀ (j : ℕ) (g : GroundStation) (p : TopoEntry × ℚ),
        gss[j]? = some g → j < rng.length →
        (∀ j2 g2, gss[j2]? = some g2 → j2 ≠ j → g2.id ≠ g.id) →
        topoDecision nti sub dmOpt sp ifm rng ((nti S).getD 0) S j g.id = some p →
        (topoSatToGsOuter T nti sub dmOpt sp ifm gss rng sats st).2 (S, g.id) =
          some p.1 := by
  intro sats
  induction sats with
  | nil => intro st S _ hS; exact absurd hS (List.not_mem_nil S)
  | cons s rest ih =>
    intro st S hnd hS hsome j g p hj hlen huniq hdec
    simp only [topoSatToGsOuter]
    by_cases hss : s = S
    · subst hss
      cases hsat : T.get_satellite s with
      | none => rw [hsat] at hsome; exact absurd hsome (by simp)
      | some sat =>
        have hsrest : s ∉ rest := (List.nodup_cons.mp hnd).1
        have hne : ∀ s2 ∈ rest, (s, g.id).1 ≠ s2 := fun s2 h2 => by
          dsimp only
          intro hcontra
          exact hsrest (by rw [hcontra]; exact h2)
        have hat := topoSatToGsInner_at_some nti sub dmOpt sp ifm rng s ((nti s).getD 0)
          gss 0 st j g p hj (by omega) huniq (by rwa [Nat.zero_add])
        exact (topoSatToGsOuter_apply_of_ne T nti sub dmOpt sp ifm gss rng rest _
          (s, g.id) hne).trans hat
    · have hSrest : S ∈ rest := by
        rcases List.mem_cons.mp hS with h | h
        · exact absurd h.symm hss
        · exact h
      cases hsat : T.get_satellite s with
      | none => exact ih st S (List.nodup_cons.mp hnd).2 hSrest hsome j g p hj hlen huniq hdec
      | some sat =>
        exact ih _ S (List.nodup_cons.mp hnd).2 hSrest hsome j g p hj hlen huniq hdec

theorem topoSatToGsOuter_at_none (T : LEOTopology) (nti : ℕ → Option ℕ)
    (sub : SatGraph) (dmOpt : Option (ℕ → ℕ → Option ℚ))
    (sp : ℕ → ℕ → Option (List ℕ)) (ifm : ℕ × ℕ → Option ℤ)
    (gss : List GroundStation) (rng : List (List (ℚ × ℕ))) :
    ∀ (sats : List ℕ) (st : DCache × FStateT) (S : ℕ), S ∈ sats →
      ∀ (j : ℕ) (g : GroundStation),
        gss[j]? = some g →
        (∀ j2 g2, gss[j2]? = some g2 → j2 ≠ j → g2.id ≠ g.id) →
        topoDecision nti sub dmOpt sp ifm rng ((nti S).getD 0) S j g.id = none →
        (topoSatToGsOuter T nti sub dmOpt sp ifm gss rng sats st).2 (S, g.id) =
          st.2 (S, g.id) := by
  intro sats
  induction sats with
  | nil => intro st S hS; exact absurd hS (List.not_mem_nil S)
  | cons s rest ih =>
    intro st S hS j g hj huniq hdec
    simp only [topoSatToGsOuter]
    by_cases hss : s = S
    · subst hss
      cases hsat : T.get_satellite s with
      | none =>
        by_cases hSrest : s ∈ rest
        · exact ih st s hSrest j g hj huniq hdec
        · exact topoSatToGsOuter_apply_of_ne T nti sub dmOpt sp ifm gss rng rest st
            (s, g.id) (fun s2 h2 => by
              dsimp only
              intro hcontra
              exact hSrest (by rw [hcontra]; exact h2))
      | some sat =>
        by_cases hSrest : s ∈ rest
        · refine (ih _ s hSrest j g hj huniq hdec).trans ?_
          exact topoSatToGsInner_at_none nti sub dmOpt sp ifm rng s ((nti s).getD 0)
            gss 0 st j g hj huniq (by rwa [Nat.zero_add])
        · refine (topoSatToGsOuter_apply_of_ne T nti sub dmOpt sp ifm gss rng rest _
            (s, g.id) (fun s2 h2 => by
              dsimp only
              intro hcontra
              exact hSrest (by rw [hcontra]; exact h2))).trans ?_
          exact topoSatToGsInner_at_none nti sub dmOpt sp ifm rng s ((nti s).getD 0)
            gss 0 st j g hj huniq (by rwa [Nat.zero_add])
    · have hSrest : S ∈ rest := by
        rcases List.mem_cons.mp hS with h | h
        · exact absurd h.symm hss
        · exact h
      cases hsat : T.get_satellite s with
      | none => exact ih st S hSrest j g hj huniq hdec
      | some sat =>
        refine (ih _ S hSrest j g hj huniq hdec).trans ?_
        exact topoSatToGsInner_apply_of_ne nti sub dmOpt sp ifm rng s ((nti s).getD 0)
          gss 0 st (S, g.id) (fun g2 _ => by
            simp only [ne_eq, Prod.mk.injEq, not_and]
            intro hcontra
            exact absurd hcontra.symm hss)

/-! Helper lemmas about `satellite_node_ids` and the satellite-only subgraph. -/

theorem mem_satellite_node_ids {T : LEOTopology} {x : ℕ}
    (h : x ∈ satellite_node_ids T) :
    x ∈ T.graph.nodes ∧ x ∈ T.satellites.map Satellite.id := by
  unfold satellite_node_ids at h
  have := (List.mem_insertionSort (· ≤ ·)).mp h
  exact ⟨(List.mem_filter.mp this).1, by
    have := (List.mem_filter.mp this).2
    simpa using this⟩

theorem get_satellite_isSome_of_mem_ids {T : LEOTopology} {x : ℕ}
    (h : x ∈ T.satellites.map Satellite.id) : (T.get_satellite x).isSome := by
  obtain ⟨sat, hmem, hid⟩ := List.mem_map.mp h
  unfold LEOTopology.get_satellite
  rw [List.find?_isSome]
  exact ⟨sat, hmem, by simp [hid]⟩

theorem subgraph_nodes_ne_nil {T : LEOTopology}
    (h : satellite_node_ids T ≠ []) :
    (T.graph.subgraph (satellite_node_ids T)).nodes ≠ [] := by
  obtain ⟨x, hx⟩ := List.exists_mem_of_ne_nil _ h
  have hxn : x ∈ T.graph.nodes := (mem_satellite_node_ids hx).1
  unfold SatGraph.subgraph
  dsimp only
  intro hcontra
  have : x ∈ (satellite_node_ids T).filter (fun n => decide (n ∈ T.graph.nodes)) :=
    List.mem_filter.mpr ⟨hx, by simpa using hxn⟩
  rw [hcontra] at this
  exact List.not_mem_nil x this

theorem satellite_node_ids_nodup {T : LEOTopology}
    (h : T.graph.nodes.Nodup) : (satellite_node_ids T).Nodup := by
  unfold satellite_node_ids
  exact ((List.perm_insertionSort (· ≤ ·) _).nodup_iff).mpr (h.filter _)

/-- Unfolding of the top-level shortest-path resolver in the successful case:
nonempty satellite node list and a successfully computed distance matrix. -/
theorem calculate_fstate_sp_run (T : LEOTopology) (gss : List GroundStation)
    (rng : List (List (ℚ × ℕ))) (dm : ℕ → ℕ → Option ℚ)
    (h : satellite_node_ids T ≠ []) :
    calculate_fstate_shortest_path_object_no_gs_relay T gss rng (some dm) =
      gsToGsOuter T (node_to_index T) gss rng
        (satToGsOuter T (node_to_index T) (T.graph.subgraph (satellite_node_ids T)) dm
          T.sat_neighbor_to_if gss rng (satellite_node_ids T)
          ((fun _ => none), (fun _ => none))).1
        0 gss
        (satToGsOuter T (node_to_index T) (T.graph.subgraph (satellite_node_ids T)) dm
          T.sat_neighbor_to_if gss rng (satellite_node_ids T)
          ((fun _ => none), (fun _ => none))).2 := by
  unfold calculate_fstate_shortest_path_object_no_gs_relay
  rw [if_neg (by simpa using h), if_neg (by simpa using subgraph_nodes_ne_nil h)]

/-! Claim theorems. -/

/-- C2: if the all-pairs shortest-path computation (Floyd-Warshall over the
satellite-only subgraph) raises an exception (`fw_result = none`),
`calculate_fstate_shortest_path_object_no_gs_relay` aborts the whole timestep
and returns an empty forwarding-state dictionary, with no partial entries. -/
theorem spath_fw_failure_returns_empty (T : LEOTopology) (gss : List GroundStation)
    (rng : List (List (ℚ × ℕ))) (k : ℕ × ℕ) :
    calculate_fstate_shortest_path_object_no_gs_relay T gss rng none k = none := by
  unfold calculate_fstate_shortest_path_object_no_gs_relay
  by_cases h : (satellite_node_ids T).isEmpty
  · rw [if_pos h]
  · rw [if_neg h]
    by_cases h2 : (T.graph.subgraph (satellite_node_ids T)).nodes.isEmpty
    · rw [if_pos h2]
    · rw [if_neg h2]

theorem get_path_loop_spec (fs : ℕ × ℕ → Option ℕ) (dst : ℕ) :
    ∀ (fuel : ℕ) (path : List ℕ) (cur : ℕ), path.getLast? = some cur →
      get_path_loop fs dst fuel path cur = none ∨
        ∃ p, get_path_loop fs dst fuel path cur = some p ∧ p.getLast? = some dst := by
  intro fuel
  induction fuel with
  | zero =>
    intro path cur hlast
    by_cases h : cur = dst
    · subst h
      rw [get_path_loop, if_pos rfl]
      exact Or.inr ⟨path, rfl, hlast⟩
    · rw [get_path_loop, if_neg h]
      exact Or.inl rfl
  | succ fuel' ih =>
    intro path cur hlast
    by_cases h : cur = dst
    · subst h
      rw [get_path_loop, if_pos rfl]
      exact Or.inr ⟨path, rfl, hlast⟩
    · rw [get_path_loop, if_neg h]
      cases hfs : fs (cur, dst) with
      | none => exact Or.inl rfl
      | some nh =>
        dsimp only
        by_cases hmem : nh ∈ path
        · rw [if_pos hmem]; exact Or.inl rfl
        · rw [if_neg hmem]
          by_cases hlen : (path ++ [nh]).length > 200
          · rw [if_pos hlen]; exact Or.inl rfl
          · rw [if_neg hlen]
            exact ih (path ++ [nh]) nh (List.getLast?_concat path)

/-- The deliberately cyclic forwarding-state fixture `{(0,2): 1, (1,2): 0}`. -/
def cycFixture : ℕ × ℕ → Option ℕ :=
  fun p => if p = (0, 2) then some 1 else if p = (1, 2) then some 0 else none

/-- C7: for every fstate mapping and `(src, dst)` pair, `get_path` returns
either a path ending at `dst` or `none` (it is a total function, so it never
raises and never loops forever); the walk yields `none` on a missing initial
entry, and the loop yields `none` on a missing lookup, on a next hop already in
the path (cycle), and on the path length exceeding the fixed bound of 200
nodes; on the cyclic fixture `{(0,2): 1, (1,2): 0}` reconstructing `(0, 2)`
returns `none`. -/
theorem get_path_terminates_path_or_none :
    (∀ (fs : ℕ × ℕ → Option ℕ) (src dst : ℕ),
      get_path src dst fs = none ∨
        ∃ p, get_path src dst fs = some p ∧ p.getLast? = some dst) ∧
    (∀ (fs : ℕ × ℕ → Option ℕ) (src dst : ℕ), src ≠ dst → fs (src, dst) = none →
      get_path src dst fs = none) ∧
    (∀ (fs : ℕ × ℕ → Option ℕ) (dst fuel : ℕ) (path : List ℕ) (cur : ℕ), cur ≠ dst →
      (fs (cur, dst) = none → get_path_loop fs dst (fuel + 1) path cur = none) ∧
      (∀ nh, fs (cur, dst) = some nh → nh ∈ path →
        get_path_loop fs dst (fuel + 1) path cur = none) ∧
      (∀ nh, fs (cur, dst) = some nh → nh ∉ path → (path ++ [nh]).length > 200 →
        get_path_loop fs dst (fuel + 1) path cur = none)) ∧
    get_path 0 2 cycFixture = none := by
  refine ⟨?_, ?_, ?_, ?_⟩
  · intro fs src dst
    by_cases h : src = dst
    · subst h
      rw [get_path, if_pos rfl]
      exact Or.inr ⟨[src], rfl, rfl⟩
    · rw [get_path, if_neg h]
      by_cases hfs : (fs (src, dst)).isSome
      · rw [if_pos hfs]
        exact get_path_loop_spec fs dst 201 [src] src rfl
      · rw [if_neg hfs]
        exact Or.inl rfl
  · intro fs src dst hne hfs
    rw [get_path, if_neg hne, if_neg (by simp [hfs])]
  · intro fs dst fuel path cur hne
    refine ⟨?_, ?_, ?_⟩
    · intro hfs
      rw [get_path_loop, if_neg hne, hfs]
    · intro nh hfs hmem
      rw [get_path_loop, if_neg hne, hfs]
      dsimp only
      rw [if_pos hmem]
    · intro nh hfs hmem hlen
      rw [get_path_loop, if_neg hne, hfs]
      dsimp only
      rw [if_neg hmem, if_pos hlen]
  · rfl

/-- C7 witness: the universally quantified conjuncts applied at the cyclic
fixture and at an everywhere-empty forwarding state. -/
theorem get_path_terminates_path_or_none_witness :
    (get_path 0 2 cycFixture = none ∨
      ∃ p, get_path 0 2 cycFixture = some p ∧ p.getLast? = some 2) ∧
    get_path 4 7 (fun _ => none) = none :=
  ⟨get_path_terminates_path_or_none.1 cycFixture 0 2,
   get_path_terminates_path_or_none.2.1 (fun _ => none) 4 7 (by decide) rfl⟩

/-- C9: round-trip of the (spec-modelled) topological address serialization:
reconstructing with `from_integer` after `to_integer` yields an equal address,
for every address whose fields fit the packing widths. -/
theorem address_to_integer_from_integer_roundtrip (a : TopologicalNetworkAddress)
    (hdev : a.device_id < 2 ^ 32) (hsub : a.subnet_index < 2 ^ 15) :
    TopologicalNetworkAddress.from_integer a.to_integer = a := by
  obtain ⟨sh, subn, sat, dev⟩ := a
  simp only at hdev hsub
  have h32 : 0 < (2 : ℕ) ^ 32 := by positivity
  have h15 : 0 < (2 : ℕ) ^ 15 := by positivity
  have key : ∀ b : ℕ, b < 2 →
      TopologicalNetworkAddress.from_integer
        (dev + 2 ^ 32 * (b + 2 * (subn + 2 ^ 15 * sh))) =
        ⟨sh, subn, decide (b = 1), dev⟩ := by
    intro b hb
    unfold TopologicalNetworkAddress.from_integer
    have hmod : (dev + 2 ^ 32 * (b + 2 * (subn + 2 ^ 15 * sh))) % 2 ^ 32 = dev := by
      rw [Nat.add_mul_mod_self_left, Nat.mod_eq_of_lt hdev]
    have hdiv : (dev + 2 ^ 32 * (b + 2 * (subn + 2 ^ 15 * sh))) / 2 ^ 32 =
        b + 2 * (subn + 2 ^ 15 * sh) := by
      rw [Nat.add_mul_div_left _ _ h32, Nat.div_eq_of_lt hdev, Nat.zero_add]
    have hmod2 : (b + 2 * (subn + 2 ^ 15 * sh)) % 2 = b := by
      rw [Nat.add_mul_mod_self_left, Nat.mod_eq_of_lt hb]
    have hdiv2 : (b + 2 * (subn + 2 ^ 15 * sh)) / 2 = subn + 2 ^ 15 * sh := by
      rw [Nat.add_mul_div_left _ _ (by norm_num : (0 : ℕ) < 2),
        Nat.div_eq_of_lt hb, Nat.zero_add]
    have hmod3 : (subn + 2 ^ 15 * sh) % 2 ^ 15 = subn := by
      rw [Nat.add_mul_mod_self_left, Nat.mod_eq_of_lt hsub]
    have hdiv3 : (subn + 2 ^ 15 * sh) / 2 ^ 15 = sh := by
      rw [Nat.add_mul_div_left _ _ h15, Nat.div_eq_of_lt hsub, Nat.zero_add]
    simp only [hmod, hdiv, hmod2, hdiv2, hmod3, hdiv3]
  cases sat with
  | false =>
    have := key 0 (by norm_num)
    simp only [TopologicalNetworkAddress.to_integer, if_neg (by simp :
      ¬(false = true))]
    simpa using this
  | true =>
    have := key 1 (by norm_num)
    simp only [TopologicalNetworkAddress.to_integer, if_pos rfl]
    simpa using this

/-- C9 witness: the round-trip at the addresses of satellite ids 0, 1, 50 and
100 (single-shell scheme) and at an address with every field populated
(multi-field encoding). -/
theorem address_roundtrip_witness :
    TopologicalNetworkAddress.from_integer
        (TopologicalNetworkAddress.from_6grupa 0).to_integer =
      TopologicalNetworkAddress.from_6grupa 0 ∧
    TopologicalNetworkAddress.from_integer
        (TopologicalNetworkAddress.from_6grupa 1).to_integer =
      TopologicalNetworkAddress.from_6grupa 1 ∧
    TopologicalNetworkAddress.from_integer
        (TopologicalNetworkAddress.from_6grupa 50).to_integer =
      TopologicalNetworkAddress.from_6grupa 50 ∧
    TopologicalNetworkAddress.from_integer
        (TopologicalNetworkAddress.from_6grupa 100).to_integer =
      TopologicalNetworkAddress.from_6grupa 100 ∧
    TopologicalNetworkAddress.from_integer
        (TopologicalNetworkAddress.mk 3 5 false 77).to_integer =
      TopologicalNetworkAddress.mk 3 5 false 77 :=
  ⟨address_to_integer_from_integer_roundtrip _ (by decide) (by decide),
   address_to_integer_from_integer_roundtrip _ (by decide) (by decide),
   address_to_integer_from_integer_roundtrip _ (by decide) (by decide),
   address_to_integer_from_integer_roundtrip _ (by decide) (by decide),
   address_to_integer_from_integer_roundtrip _ (by decide) (by decide)⟩

theorem neighborVal_eq_some {c ei : ℕ} {g : SatGraph} {nti : ℕ → Option ℕ}
    {dm : ℕ → ℕ → Option ℚ} {n : ℕ} {v : ℚ}
    (h : neighborVal c ei g nti dm n = some v) :
    ∃ ni w dq, nti n = some ni ∧ g.edgeWeight c n = some w ∧ dm ni ei = some dq ∧
      v = w + dq := by
  unfold neighborVal at h
  cases h1 : nti n with
  | none => rw [h1] at h; exact absurd h (by simp)
  | some ni =>
    rw [h1] at h
    dsimp only at h
    cases h2 : g.edgeWeight c n with
    | none => rw [h2] at h; exact absurd h (by simp)
    | some w =>
      rw [h2] at h
      dsimp only at h
      cases h3 : dm ni ei with
      | none => rw [h3] at h; exact absurd h (by simp)
      | some dq =>
        rw [h3] at h
        simp only [Option.some.injEq] at h
        exact ⟨ni, w, dq, rfl, rfl, h3, h.symm⟩

theorem neighborVal_of_parts {c ei : ℕ} {g : SatGraph} {nti : ℕ → Option ℕ}
    {dm : ℕ → ℕ → Option ℚ} {n ni : ℕ} {w dq : ℚ}
    (h1 : nti n = some ni) (h2 : g.edgeWeight c n = some w) (h3 : dm ni ei = some dq) :
    neighborVal c ei g nti dm n = some (w + dq) := by
  unfold neighborVal
  rw [h1]
  dsimp only
  rw [h2]
  dsimp only
  rw [h3]

/-- C1: for every satellite S and ground station reachable from it, the chosen
route is weight-minimal. First conjunct: the chosen total (the head of the
sorted possibility list) is no larger than `D[S,E'] + distance(E',G)` for any
alternative visible exit satellite `E'` present in the matrix index with a
finite distance from S. Second conjunct: when S is not the chosen exit, any
recorded next hop N (a non-sentinel decision) is an ISL neighbor of S
minimizing `link_weight(S,N) + D[N,E]` over all such neighbors. -/
theorem spath_route_weight_minimal
    (pds : List (ℚ × ℕ)) (S Sidx : ℕ) (nti : ℕ → Option ℕ) (sub : SatGraph)
    (dm : ℕ → ℕ → Option ℚ) (ifm : ℕ × ℕ → Option ℤ) (T : LEOTopology) (gid : ℕ)
    (t : ℚ) (e : ℕ)
    (hhead : (getSatellitePossibilities pds Sidx nti dm).head? = some (t, e)) :
    (∀ gd vs, (gd, vs) ∈ pds → ∀ j d, nti vs = some j → dm Sidx j = some d →
      t ≤ d + gd) ∧
    (S ≠ e → ∀ (n : ℕ) (li ri : ℤ),
      (getNextHopDecision (getSatellitePossibilities pds Sidx nti dm) S nti sub dm ifm
        T gid).1 = ((n : ℤ), li, ri) →
      ∀ eIdx, nti e = some eIdx →
      n ∈ sub.neighbors S ∧
      ∃ nIdx w d, nti n = some nIdx ∧ sub.edgeWeight S n = some w ∧
        dm nIdx eIdx = some d ∧
        ∀ n2 ∈ sub.neighbors S, ∀ nIdx2 w2 d2, nti n2 = some nIdx2 →
          sub.edgeWeight S n2 = some w2 → dm nIdx2 eIdx = some d2 →
          w + d ≤ w2 + d2) := by
  obtain ⟨tl, hps⟩ : ∃ tl, getSatellitePossibilities pds Sidx nti dm = (t, e) :: tl := by
    cases hh : getSatellitePossibilities pds Sidx nti dm with
    | nil => rw [hh] at hhead; exact absurd hhead (by simp)
    | cons hd tl =>
      rw [hh] at hhead
      simp only [List.head?_cons, Option.some.injEq] at hhead
      exact ⟨tl, by rw [hhead]⟩
  constructor
  · intro gd vs hmem j d hj hd
    have hx : (d + gd, vs) ∈ pds.filterMap (fun visibility_info =>
        match nti visibility_info.2 with
        | none => none
        | some visible_sat_idx =>
          match dm Sidx visible_sat_idx with
          | none => none
          | some dist_curr_to_visible_sat =>
            some (dist_curr_to_visible_sat + visibility_info.1, visibility_info.2)) := by
      refine List.mem_filterMap.mpr ⟨(gd, vs), hmem, ?_⟩
      simp only [hj, hd]
    have hle : pairLe (t, e) (d + gd, vs) :=
      @sort_head_le (pds.filterMap _) (t, e) tl hps (d + gd, vs) hx
    rcases hle with h | ⟨h, _⟩
    · exact le_of_lt h
    · exact le_of_eq h
  · intro hne n li ri hdec eIdx heIdx
    rw [hps] at hdec
    unfold getNextHopDecision at hdec
    dsimp only at hdec
    rw [heIdx] at hdec
    dsimp only at hdec
    rw [if_pos hne] at hdec
    dsimp only at hdec
    unfold handleMultihopPath at hdec
    rcases @foldl_multihop_achieve S eIdx sub nti dm ifm
      (sub.neighbors S) ((-1, -1, -1), none) with
      hfold | ⟨m, hmem, v, hv, hfold⟩
    · rw [hfold] at hdec
      simp only [Prod.mk.injEq] at hdec
      omega
    · rw [hfold] at hdec
      simp only [Prod.mk.injEq] at hdec
      obtain ⟨hmn, hli, hri⟩ := hdec
      have hmn' : m = n := by omega
      subst hmn'
      refine ⟨hmem, ?_⟩
      obtain ⟨ni, w, dq, h1, h2, h3, hv'⟩ := neighborVal_eq_some hv
      refine ⟨ni, w, dq, h1, h2, h3, ?_⟩
      intro n2 hn2 nIdx2 w2 d2 hj2 hw2 hd2
      have hval2 := @neighborVal_of_parts S eIdx sub nti dm n2 nIdx2 w2 d2 hj2 hw2 hd2
      obtain ⟨b, hb, hble⟩ := @foldl_multihop_le S eIdx sub nti dm ifm (sub.neighbors S)
        ((-1, -1, -1), none) n2 hn2 (w2 + d2) hval2
      rw [hfold] at hb
      simp only [Option.some.injEq] at hb
      rw [← hv', hb]
      exact hble

/-- Fixture for the C1 witness: two satellites 0 and 1 joined by an ISL of
weight 5; index map is the identity. -/
def w1Nti : ℕ → Option ℕ :=
  fun n => if n = 0 then some 0 else if n = 1 then some 1 else none

def w1Dm : ℕ → ℕ → Option ℚ :=
  fun i j => if i = 0 ∧ j = 1 then some 5 else if i = 1 ∧ j = 1 then some 0 else none

def w1Sub : SatGraph :=
  ⟨[0, 1], fun n => if n = 0 then [1] else if n = 1 then [0] else [],
   fun a b => if (a = 0 ∧ b = 1) ∨ (a = 1 ∧ b = 0) then some 5 else none⟩

def w1T : LEOTopology := ⟨⟨[], fun _ => [], fun _ _ => none⟩, fun _ => none, []⟩

/-- C1 witness: the weight-minimality theorem applied to the two-satellite
fixture, where satellite 0 reaches ground station 9 through exit satellite 1
at total distance 7. -/
theorem spath_route_weight_minimal_witness :
    (∀ gd vs, (gd, vs) ∈ [((2 : ℚ), 1)] → ∀ j d, w1Nti vs = some j → w1Dm 0 j = some d →
      (7 : ℚ) ≤ d + gd) ∧
    ((0 : ℕ) ≠ 1 → ∀ (n : ℕ) (li ri : ℤ),
      (getNextHopDecision (getSatellitePossibilities [((2 : ℚ), 1)] 0 w1Nti w1Dm) 0 w1Nti
        w1Sub w1Dm (fun _ => none) w1T 9).1 = ((n : ℤ), li, ri) →
      ∀ eIdx, w1Nti 1 = some eIdx →
      n ∈ w1Sub.neighbors 0 ∧
      ∃ nIdx w d, w1Nti n = some nIdx ∧ w1Sub.edgeWeight 0 n = some w ∧
        w1Dm nIdx eIdx = some d ∧
        ∀ n2 ∈ w1Sub.neighbors 0, ∀ nIdx2 w2 d2, w1Nti n2 = some nIdx2 →
          w1Sub.edgeWeight 0 n2 = some w2 → w1Dm nIdx2 eIdx = some d2 →
          w + d ≤ w2 + d2) :=
  spath_route_weight_minimal [((2 : ℚ), 1)] 0 0 w1Nti w1Sub w1Dm (fun _ => none) w1T 9 7 1
    (by norm_num [getSatellitePossibilities, w1Nti, w1Dm, List.filterMap,
      List.insertionSort, List.orderedInsert])

/-- Fixture for the C6 tie-break: current satellite is at matrix index 2 and is
at matrix distance 7 from both visible satellites 3 (index 0) and 5 (index 1). -/
def tieNti : ℕ → Option ℕ :=
  fun n => if n = 3 then some 0 else if n = 5 then some 1 else if n = 7 then some 2 else none

def tieDm : ℕ → ℕ → Option ℚ :=
  fun i j => if i = 2 ∧ (j = 0 ∨ j = 1) then some 7 else none

/-- C6 counterexample: the ground station's visibility list names satellite 5
first and satellite 3 second, both with total distance `7 + 10 = 17`; the
claim says the first-seen candidate (5) wins the tie, but the resolver picks
satellite 3 — `list.sort()` on `(total, sat_id)` tuples breaks ties by the
smaller satellite id, not by input order. -/
theorem spath_tie_break_counterexample :
    tieDm 2 1 = some 7 ∧ tieDm 2 0 = some 7 ∧
    (getSatellitePossibilities [((10 : ℚ), 5), (10, 3)] 2 tieNti tieDm).head? =
      some (17, 3) ∧
    (((17 : ℚ), (3 : ℕ)) : ℚ × ℕ) ≠ ((17 : ℚ), (5 : ℕ)) := by
  refine ⟨rfl, rfl, ?_, by decide⟩
  norm_num [getSatellitePossibilities, tieNti, tieDm, List.filterMap,
    List.insertionSort, List.orderedInsert, pairLe]

/-- C6 (amended): in the shortest-path resolver's candidate selection, when
two or more candidate exit satellites have exactly equal total distance, the
tie is broken by satellite id: the chosen candidate `(t, e)` satisfies, for
every viable candidate with total `d + gd`, either `t < d + gd` or
`t = d + gd` with `e` no larger than that candidate's id (lexicographic sort
of `(total, id)` pairs). -/
theorem spath_tie_break_smallest_id
    (pds : List (ℚ × ℕ)) (Sidx : ℕ) (nti : ℕ → Option ℕ) (dm : ℕ → ℕ → Option ℚ)
    (t : ℚ) (e : ℕ)
    (hhead : (getSatellitePossibilities pds Sidx nti dm).head? = some (t, e)) :
    ∀ gd vs, (gd, vs) ∈ pds → ∀ j d, nti vs = some j → dm Sidx j = some d →
      t < d + gd ∨ (t = d + gd ∧ e ≤ vs) := by
  obtain ⟨tl, hps⟩ : ∃ tl, getSatellitePossibilities pds Sidx nti dm = (t, e) :: tl := by
    cases hh : getSatellitePossibilities pds Sidx nti dm with
    | nil => rw [hh] at hhead; exact absurd hhead (by simp)
    | cons hd tl =>
      rw [hh] at hhead
      simp only [List.head?_cons, Option.some.injEq] at hhead
      exact ⟨tl, by rw [hhead]⟩
  intro gd vs hmem j d hj hd
  have hx : (d + gd, vs) ∈ pds.filterMap (fun visibility_info =>
      match nti visibility_info.2 with
      | none => none
      | some visible_sat_idx =>
        match dm Sidx visible_sat_idx with
        | none => none
        | some dist_curr_to_visible_sat =>
          some (dist_curr_to_visible_sat + visibility_info.1, visibility_info.2)) := by
    refine List.mem_filterMap.mpr ⟨(gd, vs), hmem, ?_⟩
    simp only [hj, hd]
  exact @sort_head_le (pds.filterMap _) (t, e) tl hps (d + gd, vs) hx

/-- C6 witness: the amended tie-break property at the tie fixture, fully
instantiated at the first-seen candidate (satellite 5, matrix index 1, total
`7 + 10`): the chosen candidate `(17, 3)` either beats it strictly or ties it
with the smaller id. -/
theorem spath_tie_break_smallest_id_witness :
    (17 : ℚ) < 7 + 10 ∨ ((17 : ℚ) = 7 + 10 ∧ (3 : ℕ) ≤ 5) :=
  spath_tie_break_smallest_id [((10 : ℚ), 5), (10, 3)] 2 tieNti tieDm 17 3
    (by norm_num [getSatellitePossibilities, tieNti, tieDm, List.filterMap,
      List.insertionSort, List.orderedInsert, pairLe])
    10 5 (List.mem_cons_self _ _) 1 7 rfl rfl

/-- Fixture for the C8 counterexample: satellites 1 (2 ISLs) and 2 (0 ISLs)
joined by an ISL of weight 5, with an empty interface mapping; ground
station 9 sees satellite 2 at distance 2. -/
def c8T : LEOTopology :=
  ⟨⟨[1, 2], fun n => if n = 1 then [2] else if n = 2 then [1] else [],
    fun a b => if (a = 1 ∧ b = 2) ∨ (a = 2 ∧ b = 1) then some 5 else none⟩,
   fun _ => none, [⟨1, 2⟩, ⟨2, 0⟩]⟩

def c8Dm : ℕ → ℕ → Option ℚ := fun i j => if i = j then some 0 else some 5

/-- C8 counterexample: with the interface mapping missing for the chosen
next-hop ISL `(1, 2)`, the resolver neither skips the forwarding entry for
`(satellite 1, ground station 9)` nor defaults it to the drop sentinel
`(-1, -1, -1)`: it records `(2, -1, -1)` — the chosen neighbor with `-1`
placeholders in the interface slots. -/
theorem spath_missing_interface_counterexample :
    calculate_fstate_shortest_path_object_no_gs_relay c8T [⟨9⟩] [[(2, 2)]]
      (some c8Dm) (1, 9) = some (2, -1, -1) ∧
    ((2, -1, -1) : FVal) ≠ ((-1, -1, -1) : FVal) := by
  refine ⟨?_, by decide⟩
  norm_num [calculate_fstate_shortest_path_object_no_gs_relay, satellite_node_ids,
    node_to_index, SatGraph.subgraph, c8T, c8Dm, List.insertionSort, List.orderedInsert,
    List.filter, List.findIdx?, satToGsOuter, satToGsInner, gsToGsOuter, gsToGsInner,
    LEOTopology.get_satellite, List.find?, getSatellitePossibilities, getNextHopDecision,
    handleMultihopPath, handleDirectGsPath, multihopStep, infLt, List.filterMap, mupd,
    List.foldl]

/-- C8 (amended): when the interface mapping for the chosen next-hop ISL is
missing, the shortest-path resolver still records the chosen neighbor,
defaulting each missing interface index to `-1` (`dict.get(..., -1)`): every
non-sentinel multihop decision `(N, li, ri)` has `N` an ISL neighbor of the
current satellite and `li`, `ri` equal to the interface lookups with default
`-1`; the lookup failure is never propagated as an exception (the embedding is
a total function). -/
theorem spath_missing_interface_defaults
    (c ei : ℕ) (sub : SatGraph) (nti : ℕ → Option ℕ) (dm : ℕ → ℕ → Option ℚ)
    (ifm : ℕ × ℕ → Option ℤ) (n : ℕ) (li ri : ℤ)
    (hdec : handleMultihopPath c ei sub nti dm ifm = ((n : ℤ), li, ri)) :
    n ∈ sub.neighbors c ∧ li = (ifm (c, n)).getD (-1) ∧ ri = (ifm (n, c)).getD (-1) := by
  unfold handleMultihopPath at hdec
  rcases @foldl_multihop_achieve c ei sub nti dm ifm
    (sub.neighbors c) ((-1, -1, -1), none) with
    hfold | ⟨m, hmem, v, hv, hfold⟩
  · rw [hfold] at hdec
    simp only [Prod.mk.injEq] at hdec
    omega
  · rw [hfold] at hdec
    simp only [Prod.mk.injEq] at hdec
    obtain ⟨hmn, hli, hri⟩ := hdec
    have hmn' : m = n := by omega
    subst hmn'
    exact ⟨hmem, hli.symm, hri.symm⟩

/-- C8 witness: the defaulting theorem applied to the two-satellite fixture
with an empty interface map, whose multihop decision is `(1, -1, -1)`. -/
theorem spath_missing_interface_defaults_witness :
    (1 : ℕ) ∈ w1Sub.neighbors 0 ∧
    (-1 : ℤ) = (((fun _ => none : ℕ × ℕ → Option ℤ) (0, 1)).getD (-1)) ∧
    (-1 : ℤ) = (((fun _ => none : ℕ × ℕ → Option ℤ) (1, 0)).getD (-1)) :=
  spath_missing_interface_defaults 0 1 w1Sub w1Nti w1Dm (fun _ => none) 1 (-1) (-1)
    (by norm_num [handleMultihopPath, w1Sub, w1Nti, w1Dm, multihopStep, infLt,
      List.foldl])

/-- C3: for every satellite S in the ISL graph and ground station G (index
within the visibility list) such that no visible exit satellite of G yields a
finite-distance path from S, the resolver records the drop sentinel
`fstate[(S, G)] = (-1, -1, -1)` and records distance infinity (`none`) in the
satellite-to-ground-station distance cache. -/
theorem spath_no_candidate_drop_sentinel
    (T : LEOTopology) (gss : List GroundStation) (rng : List (List (ℚ × ℕ)))
    (dm : ℕ → ℕ → Option ℚ) (S : ℕ) (j : ℕ) (G : GroundStation)
    (hnd : T.graph.nodes.Nodup)
    (hS : S ∈ satellite_node_ids T)
    (hj : gss[j]? = some G) (hjlen : j < rng.length)
    (huniq : ∀ j2 g2, gss[j2]? = some g2 → j2 ≠ j → g2.id ≠ G.id)
    (hdisj : ∀ g ∈ gss, g.id ≠ S)
    (hnovis : ∀ gd vs, (gd, vs) ∈ rng.getD j [] →
      ∀ vi, node_to_index T vs = some vi →
        dm ((node_to_index T S).getD 0) vi = none) :
    calculate_fstate_shortest_path_object_no_gs_relay T gss rng (some dm) (S, G.id) =
      some (-1, -1, -1) ∧
    (satToGsOuter T (node_to_index T) (T.graph.subgraph (satellite_node_ids T)) dm
      T.sat_neighbor_to_if gss rng (satellite_node_ids T)
      ((fun _ => none), (fun _ => none))).1 (S, G.id) = some none := by
  have hne : satellite_node_ids T ≠ [] := List.ne_nil_of_mem hS
  have hposs : getSatellitePossibilities (rng.getD j []) ((node_to_index T S).getD 0)
      (node_to_index T) dm = [] := by
    unfold getSatellitePossibilities
    have hfm : (rng.getD j []).filterMap (fun visibility_info =>
        match node_to_index T visibility_info.2 with
        | none => none
        | some visible_sat_idx =>
          match dm ((node_to_index T S).getD 0) visible_sat_idx with
          | none => none
          | some dist_curr_to_visible_sat =>
            some (dist_curr_to_visible_sat + visibility_info.1, visibility_info.2)) =
        [] := by
      rw [List.filterMap_eq_nil_iff]
      intro a ha
      cases hvi : node_to_index T a.2 with
      | none => simp only [hvi]
      | some vi =>
        have := hnovis a.1 a.2 ha vi hvi
        simp only [hvi, this]
    rw [hfm]
    rfl
  have hdec : spDecision T (node_to_index T) (T.graph.subgraph (satellite_node_ids T))
      dm T.sat_neighbor_to_if rng S ((node_to_index T S).getD 0) j G.id =
      ((-1, -1, -1), none) := by
    unfold spDecision
    rw [hposs]
    rfl
  have hat := satToGsOuter_at T (node_to_index T)
    (T.graph.subgraph (satellite_node_ids T)) dm T.sat_neighbor_to_if gss rng
    (satellite_node_ids T) ((fun _ => none), (fun _ => none)) S
    (satellite_node_ids_nodup hnd) hS
    (get_satellite_isSome_of_mem_ids (mem_satellite_node_ids hS).2)
    j G hj hjlen huniq
  rw [hdec] at hat
  refine ⟨?_, hat.1⟩
  rw [calculate_fstate_sp_run T gss rng dm hne]
  rw [gsToGsOuter_apply_of_ne T (node_to_index T) gss rng _ gss 0 _ (S, G.id)
    (fun g hg => by
      dsimp only
      intro hcontra
      exact hdisj g hg (by rw [hcontra]))]
  exact hat.2

/-- Fixture for the C3 witness: satellites 1 and 2 with no ISLs; ground
station 9 sees only satellite 5, which is not in the graph. -/
def c3T : LEOTopology :=
  ⟨⟨[1, 2], fun _ => [], fun _ _ => none⟩, fun _ => none, [⟨1, 0⟩, ⟨2, 0⟩]⟩

/-- C3 witness: the drop-sentinel theorem applied to the fixture, with an
everywhere-infinite distance matrix. -/
theorem spath_no_candidate_drop_sentinel_witness :
    calculate_fstate_shortest_path_object_no_gs_relay c3T [⟨9⟩] [[(2, 5)]]
      (some (fun _ _ => none)) (1, 9) = some (-1, -1, -1) ∧
    (satToGsOuter c3T (node_to_index c3T)
      (c3T.graph.subgraph (satellite_node_ids c3T)) (fun _ _ => none)
      c3T.sat_neighbor_to_if [⟨9⟩] [[(2, 5)]] (satellite_node_ids c3T)
      ((fun _ => none), (fun _ => none))).1 (1, 9) = some none :=
  spath_no_candidate_drop_sentinel c3T [⟨9⟩] [[(2, 5)]] (fun _ _ => none) 1 0 ⟨9⟩
    (by decide) (by decide) rfl (by decide)
    (by
      rintro (_ | j2) g2 h hne2
      · exact absurd rfl hne2
      · simp at h)
    (by decide)
    (fun _ _ _ _ _ => rfl)

/-- Fixture for the C4 counterexample: a topology with no satellites at all. -/
def c4Empty : LEOTopology := ⟨⟨[], fun _ => [], fun _ _ => none⟩, fun _ => none, []⟩

/-- A nonempty previous forwarding state for the C4 counterexample. -/
def c4Prev : FStateT := fun _ => some (TopoEntry.iface 0)

/-- C4 counterexample: at time 1 with `graph_has_changed = false` and a
non-`None` previous forwarding state supplied, the topological resolver does
NOT return the previous state when the ISL graph contains no satellite nodes:
the empty-graph early return fires before the memoization short-circuit and
yields the empty state instead. -/
theorem topo_short_circuit_counterexample :
    calculate_fstate_topological_routing_no_gs_relay c4Empty [] [] 1 (some c4Prev)
      false none (fun _ _ => none) (0, 0) = none ∧
    c4Prev (0, 0) = some (TopoEntry.iface 0) :=
  ⟨rfl, rfl⟩

/-- C4 (amended): provided the ISL graph contains at least one satellite node
(so the empty-graph early returns do not fire), a call with
`time_since_epoch_ns ≠ 0`, `graph_has_changed = false` and a supplied previous
forwarding state returns exactly that previous state unchanged; and at time 0
the short-circuit never fires: the result is independent of the supplied
previous state and of the `graph_has_changed` flag, so recomputation is
forced. -/
theorem topo_short_circuit_memoization :
    (∀ (T : LEOTopology) (gss : List GroundStation) (rng : List (List (ℚ × ℕ)))
      (t : ℕ) (prev : Option FStateT) (changed : Bool)
      (fw : Option (ℕ → ℕ → Option ℚ)) (sp : ℕ → ℕ → Option (List ℕ)) (p : FStateT),
      satellite_node_ids T ≠ [] → t ≠ 0 → changed = false → prev = some p →
      calculate_fstate_topological_routing_no_gs_relay T gss rng t prev changed fw sp =
        p) ∧
    (∀ (T : LEOTopology) (gss : List GroundStation) (rng : List (List (ℚ × ℕ)))
      (prev : Option FStateT) (changed : Bool)
      (fw : Option (ℕ → ℕ → Option ℚ)) (sp : ℕ → ℕ → Option (List ℕ)),
      calculate_fstate_topological_routing_no_gs_relay T gss rng 0 prev changed fw sp =
        calculate_fstate_topological_routing_no_gs_relay T gss rng 0 none true fw sp) := by
  constructor
  · intro T gss rng t prev changed fw sp p hne ht hch hprev
    subst hch hprev
    unfold calculate_fstate_topological_routing_no_gs_relay
    rw [if_neg (by simpa using hne), if_neg (by simpa using subgraph_nodes_ne_nil hne),
      if_neg ht]
  · intro T gss rng prev changed fw sp
    unfold calculate_fstate_topological_routing_no_gs_relay
    by_cases h : (satellite_node_ids T).isEmpty
    · rw [if_pos h, if_pos h]
    · rw [if_neg h, if_neg h]
      by_cases h2 : (T.graph.subgraph (satellite_node_ids T)).nodes.isEmpty
      · rw [if_pos h2, if_pos h2]
      · rw [if_neg h2, if_neg h2]
        rw [if_pos rfl, if_pos rfl]
        cases prev with
        | none => rfl
        | some p => rfl

/-- Fixture for the C4 witness: a single satellite 7 with no ISLs. -/
def c4T : LEOTopology := ⟨⟨[7], fun _ => [], fun _ _ => none⟩, fun _ => none, [⟨7, 0⟩]⟩

/-- C4 witness: the memoization theorem applied to a one-satellite topology at
time 1 with an unchanged graph, plus the forced-recomputation conjunct at
time 0. -/
theorem topo_short_circuit_memoization_witness :
    calculate_fstate_topological_routing_no_gs_relay c4T [] [] 1 (some c4Prev) false
      none (fun _ _ => none) = c4Prev ∧
    calculate_fstate_topological_routing_no_gs_relay c4T [] [] 0 (some c4Prev) false
      none (fun _ _ => none) =
      calculate_fstate_topological_routing_no_gs_relay c4T [] [] 0 none true
        none (fun _ _ => none) :=
  ⟨topo_short_circuit_memoization.1 c4T [] [] 1 (some c4Prev) false none
      (fun _ _ => none) c4Prev (by decide) (by decide) rfl rfl,
   topo_short_circuit_memoization.2 c4T [] [] (some c4Prev) false none
      (fun _ _ => none)⟩

/-- C5: in the topological resolver, for a satellite-ground-station pair whose
best candidate exit satellite `e` differs from the current satellite `S` (both
present in the satellite subgraph): if the shortest weighted ISL path from `S`
to `e` exists and has more than one node, the recorded fstate entry equals the
local interface index from `S` toward the first hop of that path; if no such
path exists (the search raises) or the path is degenerate (length 1), no
fstate entry is recorded for that pair. -/
theorem topo_first_hop_interface
    (T : LEOTopology) (nti : ℕ → Option ℕ) (sub : SatGraph)
    (dmOpt : Option (ℕ → ℕ → Option ℚ)) (sp : ℕ → ℕ → Option (List ℕ))
    (ifm : ℕ × ℕ → Option ℤ) (gss : List GroundStation) (rng : List (List (ℚ × ℕ)))
    (sats : List ℕ) (S : ℕ) (j : ℕ) (G : GroundStation) (d : ℚ) (e : ℕ)
    (hnd : sats.Nodup) (hS : S ∈ sats) (hsat : (T.get_satellite S).isSome)
    (hj : gss[j]? = some G) (hjlen : j < rng.length)
    (huniq : ∀ j2 g2, gss[j2]? = some g2 → j2 ≠ j → g2.id ≠ G.id)
    (hhead : (topoGetSatellitePossibilities (rng.getD j []) ((nti S).getD 0) nti
      dmOpt).head? = some (d, e))
    (hSne : S ≠ e) (hSnode : S ∈ sub.nodes) (hEnode : e ∈ sub.nodes) :
    (∀ (p : List ℕ) (hp : 1 < p.length) (i : ℤ), sp S e = some p →
      ifm (S, p.get ⟨1, hp⟩) = some i →
      (topoSatToGsOuter T nti sub dmOpt sp ifm gss rng sats
        ((fun _ => none), (fun _ => none))).2 (S, G.id) = some (TopoEntry.iface i)) ∧
    (sp S e = none →
      (topoSatToGsOuter T nti sub dmOpt sp ifm gss rng sats
        ((fun _ => none), (fun _ => none))).2 (S, G.id) = none) ∧
    (∀ p, sp S e = some p → p.length ≤ 1 →
      (topoSatToGsOuter T nti sub dmOpt sp ifm gss rng sats
        ((fun _ => none), (fun _ => none))).2 (S, G.id) = none) := by
  obtain ⟨tl, hps⟩ : ∃ tl, topoGetSatellitePossibilities (rng.getD j [])
      ((nti S).getD 0) nti dmOpt = (d, e) :: tl := by
    cases hh : topoGetSatellitePossibilities (rng.getD j []) ((nti S).getD 0) nti dmOpt
      with
    | nil => rw [hh] at hhead; exact absurd hhead (by simp)
    | cons hd tl =>
      rw [hh] at hhead
      simp only [List.head?_cons, Option.some.injEq] at hhead
      exact ⟨tl, by rw [hhead]⟩
  refine ⟨?_, ?_, ?_⟩
  · intro p hp i hsp hifm
    have hdec : topoDecision nti sub dmOpt sp ifm rng ((nti S).getD 0) S j G.id =
        some (TopoEntry.iface i, d) := by
      unfold topoDecision topoGetNextHopDecision
      rw [hps]
      dsimp only
      rw [if_neg hSne, if_pos ⟨hSnode, hEnode⟩, hsp]
      dsimp only
      rw [dif_pos hp, hifm]
    exact topoSatToGsOuter_at_some T nti sub dmOpt sp ifm gss rng sats _ S hnd hS hsat
      j G (TopoEntry.iface i, d) hj hjlen huniq hdec
  · intro hsp
    have hdec : topoDecision nti sub dmOpt sp ifm rng ((nti S).getD 0) S j G.id =
        none := by
      unfold topoDecision topoGetNextHopDecision
      rw [hps]
      dsimp only
      rw [if_neg hSne, if_pos ⟨hSnode, hEnode⟩, hsp]
    exact topoSatToGsOuter_at_none T nti sub dmOpt sp ifm gss rng sats _ S hS
      j G hj huniq hdec
  · intro p hsp hlen
    have hdec : topoDecision nti sub dmOpt sp ifm rng ((nti S).getD 0) S j G.id =
        none := by
      unfold topoDecision topoGetNextHopDecision
      rw [hps]
      dsimp only
      rw [if_neg hSne, if_pos ⟨hSnode, hEnode⟩, hsp]
      dsimp only
      rw [dif_neg (by omega)]
    exact topoSatToGsOuter_at_none T nti sub dmOpt sp ifm gss rng sats _ S hS
      j G hj huniq hdec

/-- Fixture for the C5 witness: satellites 1 and 2, shortest-path oracle
returning the path `[1, 2]`, interface 4 on the ISL `(1, 2)`. -/
def c5T : LEOTopology :=
  ⟨⟨[1, 2], fun n => if n = 1 then [2] else if n = 2 then [1] else [],
    fun a b => if (a = 1 ∧ b = 2) ∨ (a = 2 ∧ b = 1) then some 5 else none⟩,
   fun p => if p = (1, 2) then some 4 else if p = (2, 1) then some 6 else none,
   [⟨1, 1⟩, ⟨2, 1⟩]⟩

def c5Nti : ℕ → Option ℕ :=
  fun n => if n = 1 then some 0 else if n = 2 then some 1 else none

def c5Dm : ℕ → ℕ → Option ℚ :=
  fun i j => if i = j then some 0 else some 5

def c5Sp : ℕ → ℕ → Option (List ℕ) :=
  fun a b => if a = 1 ∧ b = 2 then some [1, 2] else none

/-- C5 witness: the first-hop-interface theorem applied to the fixture, where
satellite 1 reaches ground station 9 via exit satellite 2 on the path
`[1, 2]`, recording interface 4. -/
theorem topo_first_hop_interface_witness :
    (topoSatToGsOuter c5T c5Nti c5T.graph (some c5Dm) c5Sp c5T.sat_neighbor_to_if
      [⟨9⟩] [[(2, 2)]] [1, 2] ((fun _ => none), (fun _ => none))).2 (1, 9) =
      some (TopoEntry.iface 4) :=
  (topo_first_hop_interface c5T c5Nti c5T.graph (some c5Dm) c5Sp
    c5T.sat_neighbor_to_if [⟨9⟩] [[(2, 2)]] [1, 2] 1 0 ⟨9⟩ 7 2
    (by decide) (by decide) (by decide) rfl (by decide)
    (by
      rintro (_ | j2) g2 h hne2
      · exact absurd rfl hne2
      · simp at h)
    (by norm_num [topoGetSatellitePossibilities, c5Nti, c5Dm, List.filterMap,
      List.insertionSort, List.orderedInsert])
    (by decide) (by decide) (by decide)).1 [1, 2] (by decide) 4 rfl rfl

/-- C10: when the distance-matrix computation succeeds (and the satellite node
list is nonempty, so the computation actually runs), the returned mapping has
a key for exactly these pairs and no others: `(s, g.id)` for every satellite
`s` in the sorted satellite node list whose satellite object exists in the
topology and every ground station `g` whose index is within the visibility
list's bounds, plus `(src.id, dst.id)` for every ordered pair of
distinct-index ground stations whose source index is within the visibility
list's bounds; every such key is present even when its value is the drop
sentinel. -/
theorem spath_fstate_key_set
    (T : LEOTopology) (gss : List GroundStation) (rng : List (List (ℚ × ℕ)))
    (dm : ℕ → ℕ → Option ℚ) (hne : satellite_node_ids T ≠ []) (k : ℕ × ℕ) :
    (calculate_fstate_shortest_path_object_no_gs_relay T gss rng (some dm) k).isSome ↔
      (∃ s ∈ satellite_node_ids T, (T.get_satellite s).isSome ∧
        ∃ j g, gss[j]? = some g ∧ j < rng.length ∧ k = (s, g.id)) ∨
      (∃ i s, gss[i]? = some s ∧ ∃ j d, gss[j]? = some d ∧ i ≠ j ∧ i < rng.length ∧
        k = (s.id, d.id)) := by
  rw [calculate_fstate_sp_run T gss rng dm hne]
  rw [gsToGsOuter_isSome]
  rw [satToGsOuter_isSome]
  simp only [Nat.zero_add, Option.isSome_none, Bool.false_eq_true, false_or]

/-- C10 witness: the key-set characterization applied to the two-satellite
fixture with one ground station, at the key `(1, 9)`. -/
theorem spath_fstate_key_set_witness :
    (calculate_fstate_shortest_path_object_no_gs_relay c8T [⟨9⟩] [[(2, 2)]]
      (some c8Dm) (1, 9)).isSome ↔
      (∃ s ∈ satellite_node_ids c8T, (c8T.get_satellite s).isSome ∧
        ∃ j g, ([(⟨9⟩ : GroundStation)])[j]? = some g ∧ j < ([[((2 : ℚ), 2)]]).length ∧
          ((1, 9) : ℕ × ℕ) = (s, g.id)) ∨
      (∃ i s, ([(⟨9⟩ : GroundStation)])[i]? = some s ∧
        ∃ j d, ([(⟨9⟩ : GroundStation)])[j]? = some d ∧ i ≠ j ∧
          i < ([[((2 : ℚ), 2)]]).length ∧ ((1, 9) : ℕ × ℕ) = (s.id, d.id)) :=
  spath_fstate_key_set c8T [⟨9⟩] [[(2, 2)]] c8Dm (by decide) (1, 9)
